import Mathlib

/-!
Verification of the Parachute agent orchestration runtime.

This file gives a shallow embedding, in Lean, of the parts of the
repository that the claims C1-C10 concern: the session manager
(`lib/session-manager.js`: validation of upstream SDK session handles,
markdown serialisation and parsing of sessions, context building and
prompt preparation, message bookkeeping and cache eviction) and the
orchestrator (`lib/orchestrator.js`: the tool-permission handler with
its 120 s timeout, the grant/deny broker, depth-limited enqueueing and
spawn processing, and the streaming chatbot execution event sequence).

JavaScript strings are modelled as `List Char` (named `Str`), JavaScript
values that may be corrupted (the persisted SDK session handle) as the
inductive `JsVal`, and JavaScript `Map`s as association lists.  Ambient
effects (the current clock, the external permission decision, the SDK
message stream) are passed as explicit parameters.
-/

namespace Parachute

/-- JavaScript strings, modelled as lists of characters. -/
abbrev Str := List Char

/-- Whitespace stripped by JavaScript `String.prototype.trim`: the
ECMAScript WhiteSpace characters (TAB, VT, FF, SP, NBSP, ZWNBSP and the
Unicode space separators) together with the LineTerminators
(LF, CR, LS, PS). -/
def isWs (c : Char) : Bool :=
  c = '\t' ∨ c = '\n' ∨ c = Char.ofNat 0x0B ∨ c = Char.ofNat 0x0C ∨ c = '\r'
  ∨ c = ' ' ∨ c = Char.ofNat 0xA0 ∨ c = Char.ofNat 0x1680
  ∨ (0x2000 ≤ c.toNat ∧ c.toNat ≤ 0x200A)
  ∨ c = Char.ofNat 0x2028 ∨ c = Char.ofNat 0x2029
  ∨ c = Char.ofNat 0x202F ∨ c = Char.ofNat 0x205F
  ∨ c = Char.ofNat 0x3000 ∨ c = Char.ofNat 0xFEFF

/-- JavaScript `trim`: drop whitespace from both ends. -/
def strTrim (s : Str) : Str :=
  ((s.dropWhile isWs).reverse.dropWhile isWs).reverse

/-- First index at which `pat` occurs as a contiguous substring, if any. -/
def findSubIdx (pat : Str) : Str → Option Nat
  | [] => if pat = [] then some 0 else none
  | c :: rest =>
    if List.isPrefixOf pat (c :: rest) then some 0
    else match findSubIdx pat rest with
      | some i => some (i + 1)
      | none => none

/-- Whether `pat` occurs as a contiguous substring of the argument. -/
def hasSub (pat : Str) : Str → Bool
  | [] => List.isPrefixOf pat []
  | c :: rest => List.isPrefixOf pat (c :: rest) || hasSub pat rest

/-- JavaScript `String.prototype.split('\n')`. -/
def splitOnNl : Str → List Str
  | [] => [[]]
  | c :: rest =>
    if c = '\n' then [] :: splitOnNl rest
    else match splitOnNl rest with
      | line :: lines => (c :: line) :: lines
      | [] => [[c]]

/-- JavaScript `String.prototype.replace(pat, repl)` with a plain-string
pattern: replace the first occurrence only. -/
def replaceFirst (pat repl : Str) : Str → Str
  | [] => []
  | c :: rest =>
    if List.isPrefixOf pat (c :: rest) then repl ++ (c :: rest).drop pat.length
    else c :: replaceFirst pat repl rest

/-- Decimal rendering of a natural number (JS template interpolation). -/
def natToStr (n : Nat) : Str := (toString n).data

/-- `role.charAt(0).toUpperCase() + role.slice(1)`. -/
def capitalizeRole : Str → Str
  | [] => []
  | c :: rest => c.toUpper :: rest

/-- JavaScript `String.prototype.toLowerCase`. -/
def strToLower (s : Str) : Str := s.map Char.toLower

/-- A JavaScript value in the positions where the source is defensive
about corruption: a string, some non-string object, `null`, or
`undefined`. -/
inductive JsVal where
  | str (s : Str)
  | obj
  | nullV
  | undef
deriving DecidableEq, Repr

/-- JavaScript truthiness for `JsVal` (an empty string is falsy). -/
def jsTruthy : JsVal → Bool
  | .str s => !s.isEmpty
  | .obj => true
  | .nullV => false
  | .undef => false

/-- `typeof value === 'string'`. -/
def isStringVal : JsVal → Bool
  | .str _ => true
  | _ => false

/-- The underlying string of a string-valued `JsVal`. -/
def asStr : JsVal → Str
  | .str s => s
  | _ => []

/-- `validateSdkSessionId` (session-manager.js:546-559): must be a
non-empty string that does not look like a stringified object; returns
the value if valid, `null` otherwise. -/
def validateSdkSessionId (value : JsVal) : Option Str :=
  if !jsTruthy value || !isStringVal value then none
  else if (asStr value).length = 0 then none
  else if asStr value = "[object Object]".data
       || List.isPrefixOf "[object".data (asStr value) then none
  else some (asStr value)

/-- Association-list lookup, modelling `Map.prototype.get`. -/
def getKey {α : Type} (l : List (Str × α)) (k : Str) : Option α :=
  (l.find? (fun kv => kv.1 == k)).map (·.2)

/-- Association-list update, modelling `Map.prototype.set`. -/
def setKey {α : Type} (l : List (Str × α)) (k : Str) (v : α) : List (Str × α) :=
  if (l.find? (fun kv => kv.1 == k)).isSome then
    l.map (fun kv => if kv.1 == k then (k, v) else kv)
  else l ++ [(k, v)]

/-- Association-list removal, modelling `Map.prototype.delete`. -/
def deleteKey {α : Type} (l : List (Str × α)) (k : Str) : List (Str × α) :=
  l.filter (fun kv => kv.1 ≠ k)

/-- A conversation message: role, timestamp and content
(session-manager.js `parseMessages` / `addMessage`). -/
structure Message where
  role : Str
  timestamp : Str
  content : Str
deriving DecidableEq, Repr

/-- An in-memory session record (session-manager.js `getSession`).  The
persisted SDK handle is kept as a raw `JsVal` because the source is
defensive about corrupted (non-string) values there. -/
structure Session where
  id : Str
  key : Str
  agentPath : Str
  title : Option Str
  context : List (Str × Str)
  sdkSessionId : JsVal
  messages : List Message
  filePath : Str
  createdAt : Str
  lastAccessed : Str
  archived : Bool
deriving DecidableEq, Repr

/-- The double-quote character. -/
def dq : Str := [Char.ofNat 34]

/-- The single-quote character. -/
def sq : Str := [Char.ofNat 39]

/-- Minimal `JSON.stringify` for the session context, a flat map of
string values (`sessionId` / `documentPath`), as serialised by
`sessionToMarkdown`. -/
def jsonStringifyPairs (ps : List (Str × Str)) : Str :=
  "\x7b".data ++
    List.intercalate ",".data
      (ps.map (fun kv => dq ++ kv.1 ++ dq ++ ":".data ++ dq ++ kv.2 ++ dq)) ++
  "\x7d".data

/-- `sessionToMarkdown` (session-manager.js:564-612).  `now` stands for
`new Date().toISOString()`, used when a message lacks a timestamp. -/
def sessionToMarkdown (now : Str) (session : Session) : Str :=
  let agentName :=
    replaceFirst ".md".data [] (replaceFirst "agents/".data [] session.agentPath)
  let validatedSdkId := (validateSdkSessionId session.sdkSessionId).getD []
  let contextYaml :=
    if session.context.length > 0 then
      "context: ".data ++ jsonStringifyPairs session.context
    else []
  let titleYaml := match session.title with
    | some t => if t = [] then [] else "title: ".data ++ dq ++ t ++ dq
    | none => []
  let heading := match session.title with
    | some t => if t = [] then "Chat with ".data ++ agentName else t
    | none => "Chat with ".data ++ agentName
  let md :=
    "---\nsession_id: ".data ++ dq ++ session.id ++ dq ++
    "\nsession_key: ".data ++ dq ++ session.key ++ dq ++
    "\nagent: ".data ++ dq ++ session.agentPath ++ dq ++
    "\nagent_name: ".data ++ dq ++ agentName ++ dq ++
    "\n".data ++ titleYaml ++
    "\ntype: chat\ncreated_at: ".data ++ dq ++ session.createdAt ++ dq ++
    "\nlast_accessed: ".data ++ dq ++ session.lastAccessed ++ dq ++
    "\nsdk_session_id: ".data ++ dq ++ validatedSdkId ++ dq ++
    "\narchived: ".data ++ (if session.archived then "true".data else "false".data) ++
    "\n".data ++ contextYaml ++
    "\n---\n\n# ".data ++ heading ++ "\n\n".data
  let md := md ++ (match getKey session.context "documentPath".data with
    | some dp => if dp = [] then [] else "> Context: [[".data ++ dp ++ "]]\n\n".data
    | none => [])
  let md := md ++ "## Conversation\n\n".data
  md ++ (session.messages.map (fun msg =>
    "### ".data ++ capitalizeRole msg.role ++ " | ".data ++
    (if msg.timestamp = [] then now else msg.timestamp) ++
    "\n\n".data ++ msg.content ++ "\n\n".data)).flatten

/-- A value produced by the simple YAML parser in `parseFrontmatter`:
a string, the empty-object placeholder `{}`, or `null` (only for
`sdk_session_id`). -/
inductive YamlVal where
  | str (s : Str)
  | emptyObj
  | nullV
deriving DecidableEq, Repr

/-- Result of `parseFrontmatter`: the key/value data and the body. -/
structure Matter where
  data : List (Str × YamlVal)
  body : Str
deriving DecidableEq, Repr

/-- The frontmatter regex `^---\n([\s\S]*?)\n---\n([\s\S]*)$`: the
content must start with `---\n`; the lazy group ends at the first
`\n---\n`. -/
def splitFrontmatter (content : Str) : Option (Str × Str) :=
  if List.isPrefixOf "---\n".data content then
    let rest := content.drop 4
    match findSubIdx "\n---\n".data rest with
    | some i => some (rest.take i, rest.drop (i + 5))
    | none => none
  else none

/-- Strip one layer of matching double or single quotes
(`value.slice(1, -1)` when the value starts and ends with a quote). -/
def stripQuotes (v : Str) : Str :=
  if (List.isPrefixOf dq v && List.isSuffixOf dq v)
     || (List.isPrefixOf sq v && List.isSuffixOf sq v) then
    (v.drop 1).dropLast
  else v

/-- Interpretation of one parsed value (session-manager.js:251-258):
`''`/`'{}'` become an empty object except for `sdk_session_id`, where
`''` becomes `null`. -/
def yamlValueOf (key value : Str) : YamlVal :=
  if key ≠ "sdk_session_id".data ∧ (value = [] ∨ value = "\x7b\x7d".data) then
    .emptyObj
  else if key = "sdk_session_id".data ∧ value = [] then .nullV
  else .str value

/-- One line of the simple YAML parser in `parseFrontmatter`
(session-manager.js:239-261): split at the first colon, trim, strip
quotes, interpret the value. -/
def parseYamlLine (data : List (Str × YamlVal)) (line : Str) : List (Str × YamlVal) :=
  match line.findIdx? (fun c => c = ':') with
  | some colonIdx =>
    if colonIdx > 0 then
      let key := strTrim (line.take colonIdx)
      let value := stripQuotes (strTrim (line.drop (colonIdx + 1)))
      data ++ [(key, yamlValueOf key value)]
    else data
  | none => data

/-- Object-field lookup on parsed YAML data (later assignments win). -/
def getData (data : List (Str × YamlVal)) (k : Str) : Option YamlVal :=
  getKey data.reverse k

/-- `parseFrontmatter` (session-manager.js:228-265). -/
def parseFrontmatter (content : Str) : Matter :=
  match splitFrontmatter content with
  | none => { data := [], body := content }
  | some (yamlStr, body) =>
    { data := (splitOnNl yamlStr).foldl parseYamlLine [], body := body }

/-- Consume a literal, failing otherwise. -/
def expectStr (pat s : Str) : Option Str :=
  if List.isPrefixOf pat s then some (s.drop pat.length) else none

/-- The role alternation `(User|Assistant|System)` of the message regex. -/
def roleAlt (s : Str) : Option (Str × Str) :=
  if List.isPrefixOf "User".data s then some ("User".data, s.drop 4)
  else if List.isPrefixOf "Assistant".data s then some ("Assistant".data, s.drop 9)
  else if List.isPrefixOf "System".data s then some ("System".data, s.drop 6)
  else none

/-- Consume exactly `n` decimal digits. -/
def takeDigits (n : Nat) (s : Str) : Option (Str × Str) :=
  if (s.take n).length = n ∧ (s.take n).all Char.isDigit then
    some (s.take n, s.drop n)
  else none

/-- Characters of the `[\d:.]` class in the timestamp regex. -/
def isTsChar (c : Char) : Bool := c.isDigit || c = ':' || c = '.'

/-- The timestamp pattern `\d{4}-\d{2}-\d{2}T[\d:.]+Z?` of the message
regex; returns the matched text and the rest. -/
def matchTimestamp (s : Str) : Option (Str × Str) := do
  let (y, s1) ← takeDigits 4 s
  let s2 ← expectStr "-".data s1
  let (mo, s3) ← takeDigits 2 s2
  let s4 ← expectStr "-".data s3
  let (d, s5) ← takeDigits 2 s4
  let s6 ← expectStr "T".data s5
  let body := s6.takeWhile isTsChar
  if body = [] then none
  else
    let s7 := s6.drop body.length
    if List.isPrefixOf "Z".data s7 then
      some (y ++ "-".data ++ mo ++ "-".data ++ d ++ "T".data ++ body ++ "Z".data,
            s7.drop 1)
    else
      some (y ++ "-".data ++ mo ++ "-".data ++ d ++ "T".data ++ body, s7)

/-- The header part `### (User|Assistant|System) \| <timestamp>\n\n` of
the message regex; returns role, timestamp, and the rest. -/
def matchHeader (s : Str) : Option (Str × Str × Str) := do
  let s1 ← expectStr "### ".data s
  let (role, s2) ← roleAlt s1
  let s3 ← expectStr " | ".data s2
  let (ts, s4) ← matchTimestamp s3
  let s5 ← expectStr "\n\n".data s4
  some (role, ts, s5)

/-- The lookahead `(?=\n### |\n---|\n## |$)` terminating a message's
content capture. -/
def isTerminator (s : Str) : Bool :=
  List.isPrefixOf "\n### ".data s || List.isPrefixOf "\n---".data s
  || List.isPrefixOf "\n## ".data s

/-- The lazy content capture `([\s\S]*?)` of the message regex: the
shortest text whose following position satisfies the lookahead (or the
end of input).  Returns the captured text and the rest. -/
def takeContent : Str → Str × Str
  | [] => ([], [])
  | c :: rest =>
    if isTerminator (c :: rest) then ([], c :: rest)
    else
      let cr := takeContent rest
      (c :: cr.1, cr.2)

theorem takeContent_rest_length (s : Str) : (takeContent s).2.length ≤ s.length := by
  induction s with
  | nil => simp [takeContent]
  | cons c rest ih =>
    simp only [takeContent]
    split
    · simp
    · simpa using Nat.le_succ_of_le ih

theorem expectStr_length_le {pat s r : Str} (h : expectStr pat s = some r) :
    r.length ≤ s.length := by
  unfold expectStr at h
  split at h
  · cases h; exact (List.length_drop ..) ▸ Nat.sub_le ..
  · cases h

theorem expectStr_length_lt {pat s r : Str} (hp : pat ≠ [])
    (h : expectStr pat s = some r) : r.length < s.length := by
  unfold expectStr at h
  split at h
  next hpre =>
    cases h
    have hle : pat.length ≤ s.length :=
      (( List.isPrefixOf_iff_prefix).mp hpre).length_le
    have hpos : 0 < pat.length := List.length_pos.mpr hp
    rw [List.length_drop]
    omega
  · cases h

theorem takeDigits_length_le {n : Nat} {s d r : Str}
    (h : takeDigits n s = some (d, r)) : r.length ≤ s.length := by
  unfold takeDigits at h
  split at h
  · cases h; exact (List.length_drop ..) ▸ Nat.sub_le ..
  · cases h

theorem roleAlt_length_le {s role r : Str} (h : roleAlt s = some (role, r)) :
    r.length ≤ s.length := by
  unfold roleAlt at h
  split at h
  · cases h; exact (List.length_drop ..) ▸ Nat.sub_le ..
  · split at h
    · cases h; exact (List.length_drop ..) ▸ Nat.sub_le ..
    · split at h
      · cases h; exact (List.length_drop ..) ▸ Nat.sub_le ..
      · cases h

theorem matchTimestamp_length_le {s ts r : Str}
    (h : matchTimestamp s = some (ts, r)) : r.length ≤ s.length := by
  unfold matchTimestamp at h
  simp only [Option.bind_eq_bind, Option.bind_eq_some] at h
  obtain ⟨⟨y, s1⟩, h1, ⟨s2, h2, ⟨⟨mo, s3⟩, h3, ⟨s4, h4, ⟨⟨d, s5⟩, h5,
    ⟨s6, h6, h7⟩⟩⟩⟩⟩⟩ := h
  have l1 := takeDigits_length_le h1
  have l2 := expectStr_length_le h2
  have l3 := takeDigits_length_le h3
  have l4 := expectStr_length_le h4
  have l5 := takeDigits_length_le h5
  have l6 := expectStr_length_le h6
  split at h7
  · cases h7
  · split at h7 <;> cases h7 <;>
    · have := List.length_drop (s6.takeWhile isTsChar).length s6
      simp only [List.length_drop] at *
      omega

theorem matchHeader_length_lt {s role ts r : Str}
    (h : matchHeader s = some (role, ts, r)) : r.length < s.length := by
  unfold matchHeader at h
  simp only [Option.bind_eq_bind, Option.bind_eq_some] at h
  obtain ⟨s1, h1, ⟨⟨role', s2⟩, h2, ⟨s3, h3, ⟨⟨ts', s4⟩, h4, ⟨s5, h5, h6⟩⟩⟩⟩⟩ := h
  cases h6
  have l1 := expectStr_length_lt (by simp) h1
  have l2 := roleAlt_length_le h2
  have l3 := expectStr_length_le h3
  have l4 := matchTimestamp_length_le h4
  have l5 := expectStr_length_le h5
  dsimp only at *
  omega

/-- `parseMessages` (session-manager.js:270-285): repeatedly find the
next match of the message regex, lowercase the role and trim the
content. -/
def parseMessages : Str → List Message
  | [] => []
  | c :: rest =>
    match h : matchHeader (c :: rest) with
    | some (role, ts, afterHeader) =>
      let cr := takeContent afterHeader
      { role := strToLower role, timestamp := ts, content := strTrim cr.1 }
        :: parseMessages cr.2
    | none => parseMessages rest
termination_by s => s.length
decreasing_by
  · calc (takeContent afterHeader).2.length
        ≤ afterHeader.length := takeContent_rest_length _
      _ < (c :: rest).length := matchHeader_length_lt h
  · simp

/-- The session record as reconstructed by `parseSessionMarkdown`; raw
frontmatter fields stay `JsVal` because an absent or empty value
surfaces as `undefined` or `{}` in the source. -/
structure ParsedSession where
  id : JsVal
  key : JsVal
  agentPath : JsVal
  title : JsVal
  context : JsVal
  sdkSessionId : Option Str
  messages : List Message
  filePath : Str
  createdAt : JsVal
  lastAccessed : JsVal
  archived : Bool
deriving DecidableEq, Repr

/-- View a parsed-YAML field as the JavaScript value it denotes
(`undefined` when the key is absent). -/
def yamlToJs : Option YamlVal → JsVal
  | none => .undef
  | some (.str s) => .str s
  | some .emptyObj => .obj
  | some .nullV => .nullV

/-- `parseSessionMarkdown` (session-manager.js:200-223): returns `null`
when the frontmatter lacks a truthy `session_id`; validates the
persisted SDK handle on load. -/
def parseSessionMarkdown (content : Str) (filePath : Str) : Option ParsedSession :=
  let matter := parseFrontmatter content
  if !jsTruthy (yamlToJs (getData matter.data "session_id".data)) then none
  else
    let title := yamlToJs (getData matter.data "title".data)
    let ctx := yamlToJs (getData matter.data "context".data)
    let archivedV := yamlToJs (getData matter.data "archived".data)
    some {
      id := yamlToJs (getData matter.data "session_id".data)
      key := yamlToJs (getData matter.data "session_key".data)
      agentPath := yamlToJs (getData matter.data "agent".data)
      title := if jsTruthy title then title else .nullV
      context := if jsTruthy ctx then ctx else .obj
      sdkSessionId :=
        validateSdkSessionId (yamlToJs (getData matter.data "sdk_session_id".data))
      messages := parseMessages matter.body
      filePath := filePath
      createdAt := yamlToJs (getData matter.data "created_at".data)
      lastAccessed := yamlToJs (getData matter.data "last_accessed".data)
      archived := archivedV = .str "true".data
    }

/-! ## Context injection and prompt preparation -/

/-- `this.contextTokenBudget` (session-manager.js:85): ~50k tokens. -/
def contextTokenBudget : Nat := 50000

/-- Result of `buildContextFromHistory`. -/
structure ContextResult where
  contextString : Str
  messagesUsed : Nat
  tokensEstimate : Nat
deriving DecidableEq, Repr

/-- The backwards walk of `buildContextFromHistory`
(session-manager.js:409-429).  The argument is the message list
reversed (newest first); when processing an element, the length of the
remaining reversed tail is exactly the source's loop index `i`.
Returns the accumulated context messages (oldest first) and the token
estimate. -/
def buildLoop (budget : Nat) : List Message → Nat → List Message × Nat
  | [], estimatedTokens => ([], estimatedTokens)
  | msg :: restRev, estimatedTokens =>
    if msg.role = "system".data then buildLoop budget restRev estimatedTokens
    else
      let msgTokens := (msg.content.length + 3) / 4
      if estimatedTokens + msgTokens > budget then
        let i := restRev.length
        if i > 0 then
          ([⟨"system".data, [],
             "[".data ++ natToStr i
               ++ " earlier messages omitted for context limits]".data⟩],
           estimatedTokens)
        else ([], estimatedTokens)
      else
        let ctx := buildLoop budget restRev (estimatedTokens + msgTokens)
        (ctx.1 ++ [msg], ctx.2)

/-- `buildContextFromHistory` (session-manager.js:400-442). -/
def buildContextFromHistory (messages : List Message) : ContextResult :=
  if messages.length = 0 then ⟨[], 0, 0⟩
  else
    let cm := buildLoop contextTokenBudget messages.reverse 0
    let contextString :=
      List.intercalate "\n\n".data
        (cm.1.map (fun m => "### ".data ++ capitalizeRole m.role ++ "\n".data ++ m.content))
    ⟨contextString,
     (cm.1.filter (fun m => m.role ≠ "system".data)).length,
     cm.2⟩

/-- The `resumeInfo` record (session-manager.js:26-38). -/
structure ResumeInfo where
  method : Str
  sdkSessionValid : Bool
  sdkResumeAttempted : Bool
  sdkResumeFailed : Bool
  contextInjected : Bool
  messagesInjected : Nat
  tokensEstimate : Nat
  previousMessageCount : Nat
  loadedFromDisk : Bool
  cacheHit : Bool
deriving DecidableEq, Repr

/-- A fresh `new SessionResumeInfo()`. -/
def ResumeInfo.init : ResumeInfo :=
  ⟨"new".data, false, false, false, false, 0, 0, 0, false, false⟩

/-- The slice of the LLM query options that `preparePromptWithContext`
fills in. -/
structure QueryOptions where
  resume : Option Str
deriving DecidableEq, Repr

/-- Result of `preparePromptWithContext`. -/
structure PrepareResult where
  prompt : Str
  resumeInfo : ResumeInfo
  queryOptions : QueryOptions
deriving DecidableEq, Repr

/-- `preparePromptWithContext` (session-manager.js:448-500). -/
def preparePromptWithContext (session : Session) (message : Str)
    (resumeInfo : ResumeInfo) : PrepareResult :=
  let sdkId := session.sdkSessionId
  let isValidSessionId := validateSdkSessionId sdkId
  let resumeInfo := { resumeInfo with
    sdkSessionValid := isValidSessionId.isSome
    previousMessageCount := session.messages.length }
  if isValidSessionId.isSome then
    let resumeInfo := { resumeInfo with
      method := "sdk_resume".data, sdkResumeAttempted := true }
    { prompt := message, resumeInfo := resumeInfo,
      queryOptions := { resume := some (asStr sdkId) } }
  else if session.messages.length > 0 then
    let r := buildContextFromHistory session.messages
    if r.contextString ≠ [] then
      let resumeInfo := { resumeInfo with
        method := "context_injection".data, contextInjected := true
        messagesInjected := r.messagesUsed, tokensEstimate := r.tokensEstimate }
      { prompt := "## Previous Conversation\n\n".data ++ r.contextString
          ++ "\n\n---\n\n## Current Message\n\n".data ++ message
        resumeInfo := resumeInfo
        queryOptions := { resume := none } }
    else
      { prompt := message
        resumeInfo := { resumeInfo with method := "new".data }
        queryOptions := { resume := none } }
  else
    { prompt := message
      resumeInfo := { resumeInfo with method := "new".data }
      queryOptions := { resume := none } }

/-! ## Session-manager in-memory state -/

/-- A lightweight index entry (session-manager.js:158-171, 523-534). -/
structure IndexEntry where
  id : Str
  filePath : Str
  messageCount : Nat
deriving DecidableEq, Repr

/-- The in-memory maps of `SessionManager`: the lightweight
`sessionIndex` and the on-demand `loadedSessions` cache. -/
structure SMState where
  sessionIndex : List (Str × IndexEntry)
  loadedSessions : List (Str × Session)
deriving DecidableEq, Repr

/-- The index entry written by `saveSession` for a session. -/
def indexEntryOf (session : Session) : IndexEntry :=
  { id := session.id, filePath := session.filePath,
    messageCount := session.messages.length }

/-- `addMessage` (session-manager.js:631-645): push onto the loaded
session and persist (which refreshes the index entry); when the key is
not in the loaded map, log an error and change nothing. -/
def addMessage (st : SMState) (now : Str) (sessionKey : Str) (role content : Str) :
    SMState :=
  match getKey st.loadedSessions sessionKey with
  | some session =>
    let session := { session with
      messages := session.messages ++ [⟨role, now, content⟩]
      lastAccessed := now }
    { st with
      loadedSessions := setKey st.loadedSessions sessionKey session
      sessionIndex := setKey st.sessionIndex sessionKey (indexEntryOf session) }
  | none => st

/-- `getMessages` (session-manager.js:695-698). -/
def getMessages (st : SMState) (sessionKey : Str) : List Message :=
  match getKey st.loadedSessions sessionKey with
  | some session => session.messages
  | none => []

/-- `this.cacheMaxAge` (session-manager.js:84): 30 minutes. -/
def cacheMaxAge : Nat := 30 * 60 * 1000

/-- `evictStaleSessions` (session-manager.js:922-939): drop loaded
sessions idle longer than `cacheMaxAge`; the index is untouched.
`parseTime` stands for `new Date(x).getTime()` and `now` for
`Date.now()`.  Returns the new state and the eviction count. -/
def evictStaleSessions (parseTime : Str → Nat) (now : Nat) (st : SMState) :
    SMState × Nat :=
  let keep := st.loadedSessions.filter
    (fun kv => !(now - parseTime kv.2.lastAccessed > cacheMaxAge))
  ({ st with loadedSessions := keep },
   st.loadedSessions.length - keep.length)

/-! ## Permission handler and broker (orchestrator.js) -/

/-- The hard permission deadline (orchestrator.js:140, 208): 2 minutes. -/
def timeoutMs : Nat := 120000

/-- The resolved value of
`Promise.race([promise, new Promise(r => setTimeout(() => r('timeout'), timeoutMs))])`. -/
inductive Decision where
  | granted
  | denied
  | timeout
deriving DecidableEq, Repr

/-- Outcome of the race: the external grant/deny arrives after `t`
milliseconds (`g` = granted), or never; the timer wins at or after
`timeoutMs`. -/
def raceDecision (externalResponse : Option (Nat × Bool)) : Decision :=
  match externalResponse with
  | some (t, g) => if t < timeoutMs then (if g then .granted else .denied) else .timeout
  | none => .timeout

/-- A pending permission request (orchestrator.js:121-132, 183-194).
The single-shot resolver slot is modelled by the handler's decision
oracle and the broker's resolution log. -/
structure PermissionRequest where
  id : Str
  toolName : Str
  filePath : Str
  agentName : Str
  agentPath : Str
  allowedPatterns : List Str
  timestamp : Nat
  status : Str
deriving DecidableEq, Repr

/-- The agent fields the permission handler consults
(`agent.permissions?.write` is `none` when not configured). -/
structure Agent where
  name : Str
  path : Str
  write : Option (List Str)
deriving DecidableEq, Repr

/-- The tool-input fields the handler inspects. -/
structure ToolInput where
  file_path : Option Str
  path : Option Str
  command : Option Str
deriving DecidableEq, Repr

/-- A denial record passed to the `onDenial` callback. -/
structure Denial where
  toolName : Str
  filePath : Str
  reason : Str
deriving DecidableEq, Repr

/-- `behavior` of a tool decision. -/
inductive Behavior where
  | allow
  | deny
deriving DecidableEq, Repr

/-- The value returned by the `canUseTool` callback (allow results carry
no message or interrupt flag). -/
structure ToolDecision where
  behavior : Behavior
  message : Option Str
  interrupt : Option Bool
deriving DecidableEq, Repr

/-- `{ behavior: 'allow', updatedInput: input }`. -/
def allowDecision : ToolDecision := ⟨.allow, none, none⟩

/-- `{ behavior: 'deny', message, interrupt: false }`. -/
def denyDecision (msg : Str) : ToolDecision := ⟨.deny, some msg, some false⟩

/-- Everything one invocation of the callback produces: the decision,
the pending map after returning, the denials reported via `onDenial`,
and the permission request it created (if any). -/
structure HandlerResult where
  decision : ToolDecision
  pending : List (Str × PermissionRequest)
  denials : List Denial
  requested : Option PermissionRequest
deriving DecidableEq, Repr

/-- JavaScript `a || b` on possibly-absent strings (empty is falsy). -/
def jsOrStr (a b : Option Str) : Option Str :=
  match a with
  | some s => if s = [] then b else some s
  | none => b

/-- Truthiness of a possibly-absent string. -/
def truthyS : Option Str → Bool
  | some s => s ≠ []
  | none => false

/-- `.replace(/^\//, '')`: drop one leading slash. -/
def dropLeadingSlash : Str → Str
  | [] => []
  | c :: r => if c = '/' then r else c :: r

/-- The `canUseTool` callback produced by `createPermissionHandler`
(orchestrator.js:81-253).  `matchesPatterns` (agent-loader.js, not under
src/) is taken as a parameter; `externalResponse` is the oracle for the
awaited grant/deny, raced against the 120 s timer; `now` stands for
`Date.now()`. -/
def canUseTool (matchesPatterns : Str → List Str → Bool) (vaultPath : Str)
    (agent : Agent) (sessionId : Str) (now : Nat)
    (toolName : Str) (input : ToolInput) (toolUseID : Str)
    (externalResponse : Option (Nat × Bool))
    (pending : List (Str × PermissionRequest)) : HandlerResult :=
  let filePath0 := jsOrStr input.file_path input.path
  let filePath : Option Str :=
    match filePath0 with
    | some fp =>
      if fp ≠ [] ∧ List.isPrefixOf vaultPath fp then
        some (dropLeadingSlash (fp.drop vaultPath.length))
      else filePath0
    | none => none
  let isWriteOp :=
    toolName = "Write".data ∨ toolName = "Edit".data ∨ toolName = "Bash".data
  if toolName = "Bash".data ∧ truthyS input.command then
    let cmd := input.command.getD []
    let writePatterns := agent.write.getD ["*".data]
    let hasFullWriteAccess := writePatterns.contains "*".data
    if hasFullWriteAccess then
      { decision := allowDecision, pending := pending, denials := [], requested := none }
    else
      let requestId := sessionId ++ "-".data ++ toolUseID
      let permissionRequest : PermissionRequest :=
        { id := requestId, toolName := "Bash".data, filePath := cmd,
          agentName := agent.name, agentPath := agent.path,
          allowedPatterns := writePatterns, timestamp := now,
          status := "pending".data }
      let pending1 := setKey pending requestId permissionRequest
      let decision := raceDecision externalResponse
      let pending2 := deleteKey pending1 requestId
      match decision with
      | .granted =>
        { decision := allowDecision, pending := pending2, denials := [],
          requested := some permissionRequest }
      | .timeout =>
        { decision := denyDecision "Bash command approval timed out.".data,
          pending := pending2, denials := [⟨"Bash".data, cmd, "timeout".data⟩],
          requested := some permissionRequest }
      | .denied =>
        { decision := denyDecision "Bash command denied by user.".data,
          pending := pending2, denials := [⟨"Bash".data, cmd, "denied".data⟩],
          requested := some permissionRequest }
  else
    match filePath with
    | some fp =>
      if isWriteOp ∧ fp ≠ [] then
        let writePatterns := agent.write.getD ["*".data]
        let isAllowed := matchesPatterns fp writePatterns
        if !isAllowed then
          let requestId := sessionId ++ "-".data ++ toolUseID
          let permissionRequest : PermissionRequest :=
            { id := requestId, toolName := toolName, filePath := fp,
              agentName := agent.name, agentPath := agent.path,
              allowedPatterns := writePatterns, timestamp := now,
              status := "pending".data }
          let pending1 := setKey pending requestId permissionRequest
          let decision := raceDecision externalResponse
          let pending2 := deleteKey pending1 requestId
          match decision with
          | .granted =>
            { decision := allowDecision, pending := pending2, denials := [],
              requested := some permissionRequest }
          | .timeout =>
            { decision := denyDecision
                ("Permission request timed out after ".data
                  ++ natToStr (timeoutMs / 1000)
                  ++ " seconds. The user did not respond.".data),
              pending := pending2, denials := [⟨toolName, fp, "timeout".data⟩],
              requested := some permissionRequest }
          | .denied =>
            { decision := denyDecision
                ("Write permission denied by user for ".data ++ dq ++ fp ++ dq
                  ++ ".".data),
              pending := pending2, denials := [⟨toolName, fp, "denied".data⟩],
              requested := some permissionRequest }
        else
          { decision := allowDecision, pending := pending, denials := [],
            requested := none }
      else
        { decision := allowDecision, pending := pending, denials := [],
          requested := none }
    | none =>
      { decision := allowDecision, pending := pending, denials := [],
        requested := none }

/-- The broker's observable state: the pending map, the log of
single-shot slot resolutions, and the emitted events. -/
structure BrokerState where
  pending : List (Str × PermissionRequest)
  resolutions : List (Str × Str)
  events : List (Str × Str)
deriving DecidableEq, Repr

/-- `grantPermission` (orchestrator.js:267-281). -/
def grantPermission (st : BrokerState) (requestId : Str) : Bool × BrokerState :=
  match getKey st.pending requestId with
  | some request =>
    if request.status = "pending".data then
      let request := { request with status := "granted".data }
      let st := { st with
        resolutions := st.resolutions ++ [(requestId, "granted".data)] }
      let st := { st with pending := setKey st.pending requestId request }
      let st := { st with
        events := st.events ++ [("permissionGranted".data, requestId)] }
      (true, st)
    else (false, st)
  | none => (false, st)

/-- `denyPermission` (orchestrator.js:286-300). -/
def denyPermission (st : BrokerState) (requestId : Str) : Bool × BrokerState :=
  match getKey st.pending requestId with
  | some request =>
    if request.status = "pending".data then
      let request := { request with status := "denied".data }
      let st := { st with
        resolutions := st.resolutions ++ [(requestId, "denied".data)] }
      let st := { st with pending := setKey st.pending requestId request }
      let st := { st with
        events := st.events ++ [("permissionDenied".data, requestId)] }
      (true, st)
    else (false, st)
  | none => (false, st)

/-! ## Queue, depth-limited enqueue and spawn processing -/

/-- A queue item with the fields the depth claims concern. -/
structure QueueItem where
  id : Nat
  agentPath : Str
  depth : Nat
  priority : Nat
deriving DecidableEq, Repr

/-- The agent queue's item store. -/
structure QueueState where
  items : List QueueItem
  nextId : Nat
deriving DecidableEq, Repr

/-- The queue capacity configured by the orchestrator
(orchestrator.js:44). -/
def queueMaxSize : Nat := 100

/-- Modelled from the spec: `lib/queue.js` (`AgentQueue.enqueue`) is not
under src/; per the spec's queue contract it appends a pending item
carrying the given fields and fails with `QueueFull` beyond the
capacity cap. -/
def queueEnqueue (q : QueueState) (agentPath : Str) (depth priority : Nat) :
    Except Str (QueueState × QueueItem) :=
  if q.items.length ≥ queueMaxSize then .error "QueueFull".data
  else
    let item : QueueItem :=
      { id := q.nextId, agentPath := agentPath, depth := depth, priority := priority }
    .ok ({ items := q.items ++ [item], nextId := q.nextId + 1 }, item)

/-- The orchestrator configuration fields the claims use
(`maxDepth` defaults to 3, orchestrator.js:27). -/
structure OrchConfig where
  maxDepth : Nat
deriving DecidableEq, Repr

/-- `Priority.NORMAL`. -/
def priorityNormal : Nat := 1

/-- `Orchestrator.enqueue` (orchestrator.js:382-409): reject at or above
the depth cap before touching the queue. -/
def orchestratorEnqueue (config : OrchConfig) (q : QueueState) (agentPath : Str)
    (optDepth : Option Nat) (optPriority : Option Nat) :
    Except Str (QueueState × Nat) :=
  let depth := optDepth.getD 0
  if depth ≥ config.maxDepth then
    .error ("Max spawn depth (".data ++ natToStr config.maxDepth ++ ") reached".data)
  else
    match queueEnqueue q agentPath depth (optPriority.getD priorityNormal) with
    | .error e => .error e
    | .ok (q2, item) => .ok (q2, item.id)

/-- The spawn-processing loop of `executeAgent`
(orchestrator.js:1180-1192): each spawn is enqueued at `depth + 1` when
that stays below the cap, otherwise skipped with a warning; a thrown
enqueue aborts the loop (caught by `executeAgent`'s handler).  Returns
the queue and the warnings logged. -/
def processSpawnRequests (config : OrchConfig) (depth : Nat) (q : QueueState) :
    List Str → QueueState × List Str
  | [] => (q, [])
  | spawn :: rest =>
    if depth + 1 < config.maxDepth then
      match orchestratorEnqueue config q spawn (some (depth + 1)) none with
      | .ok (q2, _) => processSpawnRequests config depth q2 rest
      | .error _ => (q, [])
    else
      let r := processSpawnRequests config depth q rest
      (r.1, "Spawn blocked: max depth reached".data :: r.2)

/-! ## Streaming chatbot execution -/

/-- A content block of an SDK assistant message. -/
inductive SdkBlock where
  | text (s : Str)
  | toolUse (id name input : Str)
deriving DecidableEq, Repr

/-- An SDK message yielded by the LLM client's query iterator. -/
inductive SdkMsg where
  | sysInit (tools : List Str) (permissionMode : Str)
  | assistant (content : List SdkBlock)
  | result (res : Option Str)
  | other
deriving DecidableEq, Repr

/-- An event yielded by `executeChatbotAgentStreaming`. -/
inductive StreamEvent where
  | session (sessionId : Str) (resumeInfo : ResumeInfo)
  | init (tools : List Str) (permissionMode : Str)
  | text (content delta : Str)
  | toolUse (id name input : Str)
  | done (response : Str) (sessionId : Str)
  | error (message : Str) (sessionId : Str)
deriving DecidableEq, Repr

/-- Mutable loop state of the streaming generator: the previously
emitted text, the accumulated result, and the events yielded so far. -/
structure StreamAcc where
  currentText : Str
  result : Str
  events : List StreamEvent
deriving DecidableEq, Repr

/-- Handling of one assistant content block
(orchestrator.js:574-600): emit a text delta when the text grew, emit
tool uses. -/
def stepBlock (acc : StreamAcc) : SdkBlock → StreamAcc
  | .text newText =>
    if newText ≠ acc.currentText then
      { acc with
        events := acc.events ++ [.text newText (newText.drop acc.currentText.length)]
        currentText := newText
        result := newText }
    else acc
  | .toolUse id name input =>
    { acc with events := acc.events ++ [.toolUse id name input] }

/-- Handling of one SDK message in the streaming loop
(orchestrator.js:560-614). -/
def stepMsg (acc : StreamAcc) : SdkMsg → StreamAcc
  | .sysInit tools pm => { acc with events := acc.events ++ [.init tools pm] }
  | .assistant blocks => blocks.foldl stepBlock acc
  | .result res =>
    match res with
    | some r =>
      { acc with
        result := r
        events := acc.events ++ [.text r (r.drop acc.currentText.length)] }
    | none => acc
  | .other => acc

/-- The event trace of `executeChatbotAgentStreaming`
(orchestrator.js:481-674) as a function of the SDK message trace: the
session event is yielded before the guarded loop; an execution failure
after `k` messages (`failAfter = some (k, msg)`) ends the stream with an
error event, success ends it with the done event. -/
def executeChatbotAgentStreaming (session : Session) (resumeInfo : ResumeInfo)
    (msgs : List SdkMsg) (failAfter : Option (Nat × Str)) : List StreamEvent :=
  match failAfter with
  | some (k, errMsg) =>
    let acc := (msgs.take k).foldl stepMsg ⟨[], [], []⟩
    .session session.id resumeInfo :: acc.events ++ [.error errMsg session.id]
  | none =>
    let acc := msgs.foldl stepMsg ⟨[], [], []⟩
    .session session.id resumeInfo :: acc.events ++ [.done acc.result session.id]

/-! ## General lemmas about the validator -/

theorem validateSdkSessionId_eq_some {v : JsVal} {s : Str}
    (h : validateSdkSessionId v = some s) : v = .str s := by
  cases v <;>
    simp only [validateSdkSessionId, jsTruthy, isStringVal, asStr] at h <;>
    first
      | cases h
      | (split_ifs at h <;> simp_all)

theorem validateSdkSessionId_str (s : Str) :
    validateSdkSessionId (.str s) =
      if s ≠ [] ∧ s ≠ "[object Object]".data
          ∧ ¬ List.isPrefixOf "[object".data s = true then
        some s
      else none := by
  simp only [validateSdkSessionId, jsTruthy, isStringVal, asStr]
  split_ifs <;> simp_all <;> omega

theorem validateSdkSessionId_not_str {v : JsVal} (h : isStringVal v = false) :
    validateSdkSessionId v = none := by
  cases v <;> simp_all [validateSdkSessionId, jsTruthy, isStringVal]

/-! ## Claim theorems -/

/-- C1: `preparePromptWithContext` selects exactly one of three modes:
a validated stored upstream handle gives `sdk_resume` with the message
passed through and `{resume: handle}`; an absent/invalid handle with a
non-empty message list (yielding non-empty history) gives
`context_injection` with the exact composed prompt; an absent handle
with no prior messages gives `new` with the message passed through. -/
theorem preparePrompt_three_modes (session : Session) (message : Str)
    (ri : ResumeInfo) :
    ((preparePromptWithContext session message ri).resumeInfo.method
        = "sdk_resume".data
      ∨ (preparePromptWithContext session message ri).resumeInfo.method
        = "context_injection".data
      ∨ (preparePromptWithContext session message ri).resumeInfo.method
        = "new".data)
    ∧ (∀ h, validateSdkSessionId session.sdkSessionId = some h →
        (preparePromptWithContext session message ri).resumeInfo.method
          = "sdk_resume".data
        ∧ (preparePromptWithContext session message ri).prompt = message
        ∧ (preparePromptWithContext session message ri).queryOptions
          = { resume := some h })
    ∧ (validateSdkSessionId session.sdkSessionId = none →
        session.messages ≠ [] →
        (buildContextFromHistory session.messages).contextString ≠ [] →
        (preparePromptWithContext session message ri).resumeInfo.method
          = "context_injection".data
        ∧ (preparePromptWithContext session message ri).prompt
          = "## Previous Conversation\n\n".data
            ++ (buildContextFromHistory session.messages).contextString
            ++ "\n\n---\n\n## Current Message\n\n".data ++ message)
    ∧ (validateSdkSessionId session.sdkSessionId = none →
        session.messages = [] →
        (preparePromptWithContext session message ri).resumeInfo.method
          = "new".data
        ∧ (preparePromptWithContext session message ri).prompt = message
        ∧ (preparePromptWithContext session message ri).queryOptions
          = { resume := none }) := by
  refine ⟨?_, ?_, ?_, ?_⟩
  · unfold preparePromptWithContext
    dsimp only
    split_ifs <;> simp
  · intro h hv
    have hstr := validateSdkSessionId_eq_some hv
    unfold preparePromptWithContext
    dsimp only
    split_ifs with h1 h2 h3 <;> simp_all [asStr]
  · intro hv hne hcs
    unfold preparePromptWithContext
    dsimp only
    split_ifs with h1 h2 h3 <;> simp_all [List.length_pos]
  · intro hv hnil
    unfold preparePromptWithContext
    dsimp only
    split_ifs with h1 h2 h3 <;> simp_all

/-- Concrete session fixture with a valid upstream handle. -/
def resumeSession : Session :=
  { id := "abc".data, key := "agents/helper.md:default".data,
    agentPath := "agents/helper.md".data, title := none, context := [],
    sdkSessionId := .str "sdk-123".data,
    messages := [⟨"user".data, "2025-01-01T00:00:00Z".data, "Hello".data⟩],
    filePath := "f.md".data, createdAt := "c".data, lastAccessed := "l".data,
    archived := false }

/-- Witness for C1 at a concrete session with a valid handle. -/
theorem preparePrompt_three_modes_witness :
    (preparePromptWithContext resumeSession "msg".data ResumeInfo.init).resumeInfo.method
      = "sdk_resume".data
    ∧ (preparePromptWithContext resumeSession "msg".data ResumeInfo.init).prompt
      = "msg".data
    ∧ (preparePromptWithContext resumeSession "msg".data ResumeInfo.init).queryOptions
      = { resume := some "sdk-123".data } :=
  (preparePrompt_three_modes resumeSession "msg".data ResumeInfo.init).2.1
    "sdk-123".data (by decide)

/-! ## Association-list lemmas -/

theorem getKey_filter_none {α : Type} (l : List (Str × α)) (k : Str)
    (p : Str × α → Bool) (h : ∀ kv ∈ l, kv.1 = k → p kv = false) :
    getKey (l.filter p) k = none := by
  have hfind : (l.filter p).find? (fun kv => kv.1 == k) = none := by
    rw [List.find?_eq_none]
    intro kv hmem hbeq
    have hl := List.mem_of_mem_filter hmem
    have hp := List.of_mem_filter hmem
    have hk : kv.1 = k := by simpa using hbeq
    rw [h kv hl hk] at hp
    cases hp
  simp [getKey, hfind]

theorem getKey_deleteKey {α : Type} (l : List (Str × α)) (k : Str) :
    getKey (deleteKey l k) k = none := by
  unfold deleteKey
  exact getKey_filter_none l k _
    (fun kv _ hk => decide_eq_false (not_not_intro hk))

theorem find?_map_overwrite {α : Type} (rest : List (Str × α)) (k : Str) (v : α)
    (hf : (rest.find? (fun kv => kv.1 == k)).isSome) :
    (rest.map (fun kv => if (kv.1 == k) = true then (k, v) else kv)).find?
      (fun kv => kv.1 == k) = some (k, v) := by
  induction rest with
  | nil => simp at hf
  | cons kv r ih =>
    by_cases hk : (kv.1 == k) = true
    · rw [List.map_cons, if_pos hk]
      exact List.find?_cons_of_pos _ (by simp)
    · have hk' : (kv.1 == k) = false := by rwa [Bool.not_eq_true] at hk
      rw [List.map_cons, if_neg hk]
      simp only [List.find?_cons, hk'] at hf ⊢
      exact ih hf

theorem getKey_setKey {α : Type} (l : List (Str × α)) (k : Str) (v : α) :
    getKey (setKey l k v) k = some v := by
  unfold setKey
  by_cases hf : (l.find? (fun kv => kv.1 == k)).isSome
  · rw [if_pos hf]
    unfold getKey
    rw [find?_map_overwrite l k v hf]
    rfl
  · rw [if_neg hf]
    have hnone : l.find? (fun kv => kv.1 == k) = none := by
      cases h : l.find? (fun kv => kv.1 == k)
      · rfl
      · rw [h] at hf; simp at hf
    have happ : (l ++ [(k, v)]).find? (fun kv => kv.1 == k) = some (k, v) := by
      rw [List.find?_append, hnone]
      simp
    unfold getKey
    rw [happ]
    rfl

/-- A late or absent external answer loses the race. -/
theorem raceDecision_timeout {resp : Option (Nat × Bool)}
    (h : resp = none ∨ ∃ t g, resp = some (t, g) ∧ timeoutMs ≤ t) :
    raceDecision resp = .timeout := by
  rcases h with h | ⟨t, g, rfl, ht⟩
  · simp [h, raceDecision]
  · simp [raceDecision, Nat.not_lt.mpr ht]

/-- C2: every permission-gated write operation races the approval slot
against the 120000 ms timer; a timeout yields a deny with a diagnostic
message, a recorded denial with reason `timeout`, and no interruption
(`interrupt: false`); and in all cases the request entry is removed from
the pending map before the decision is returned. -/
theorem permission_timeout_and_cleanup (matchesPatterns : Str → List Str → Bool)
    (vaultPath : Str) (agent : Agent) (sessionId : Str) (now : Nat)
    (toolName : Str) (input : ToolInput) (toolUseID : Str)
    (externalResponse : Option (Nat × Bool))
    (pending : List (Str × PermissionRequest)) :
    timeoutMs = 120000
    ∧ ∀ req,
      (canUseTool matchesPatterns vaultPath agent sessionId now toolName input
        toolUseID externalResponse pending).requested = some req →
      ((externalResponse = none
          ∨ ∃ t g, externalResponse = some (t, g) ∧ timeoutMs ≤ t) →
        (canUseTool matchesPatterns vaultPath agent sessionId now toolName input
          toolUseID externalResponse pending).decision.behavior = .deny
        ∧ (∃ m, (canUseTool matchesPatterns vaultPath agent sessionId now toolName
            input toolUseID externalResponse pending).decision.message = some m)
        ∧ (canUseTool matchesPatterns vaultPath agent sessionId now toolName input
            toolUseID externalResponse pending).decision.interrupt = some false
        ∧ (canUseTool matchesPatterns vaultPath agent sessionId now toolName input
            toolUseID externalResponse pending).denials
          = [⟨req.toolName, req.filePath, "timeout".data⟩])
      ∧ (canUseTool matchesPatterns vaultPath agent sessionId now toolName input
          toolUseID externalResponse pending).pending
        = deleteKey (setKey pending req.id req) req.id
      ∧ getKey (canUseTool matchesPatterns vaultPath agent sessionId now toolName
          input toolUseID externalResponse pending).pending req.id = none := by
  refine ⟨rfl, ?_⟩
  intro req hreq
  unfold canUseTool at hreq ⊢
  dsimp only at hreq ⊢
  by_cases h1 : toolName = "Bash".data ∧ truthyS input.command = true
  · rw [if_pos h1] at hreq ⊢
    by_cases h2 : (agent.write.getD ["*".data]).contains "*".data = true
    · rw [if_pos h2] at hreq ⊢
      cases hreq
    · rw [if_neg h2] at hreq ⊢
      cases hd : raceDecision externalResponse <;>
        simp only [hd] at hreq ⊢ <;>
        obtain rfl := (Option.some.inj hreq).symm
      · exact ⟨fun ht => absurd (raceDecision_timeout ht) (by simp [hd]),
          rfl, getKey_deleteKey ..⟩
      · exact ⟨fun ht => absurd (raceDecision_timeout ht) (by simp [hd]),
          rfl, getKey_deleteKey ..⟩
      · exact ⟨fun _ => ⟨rfl, ⟨_, rfl⟩, rfl, rfl⟩, rfl, getKey_deleteKey ..⟩
  · rw [if_neg h1] at hreq ⊢
    rcases hF : (match jsOrStr input.file_path input.path with
      | some fp =>
        if fp ≠ [] ∧ List.isPrefixOf vaultPath fp = true then
          some (dropLeadingSlash (fp.drop vaultPath.length))
        else jsOrStr input.file_path input.path
      | none => none) with _ | fp <;>
      rw [hF] at hreq ⊢ <;> dsimp only at hreq ⊢
    · cases hreq
    · by_cases h3 : (toolName = "Write".data ∨ toolName = "Edit".data
          ∨ toolName = "Bash".data) ∧ fp ≠ []
      · rw [if_pos h3] at hreq ⊢
        by_cases h4 : (!matchesPatterns fp (agent.write.getD ["*".data])) = true
        · rw [if_pos h4] at hreq ⊢
          cases hd : raceDecision externalResponse <;>
            simp only [hd] at hreq ⊢ <;>
            obtain rfl := (Option.some.inj hreq).symm
          · exact ⟨fun ht => absurd (raceDecision_timeout ht) (by simp [hd]),
              rfl, getKey_deleteKey ..⟩
          · exact ⟨fun ht => absurd (raceDecision_timeout ht) (by simp [hd]),
              rfl, getKey_deleteKey ..⟩
          · exact ⟨fun _ => ⟨rfl, ⟨_, rfl⟩, rfl, rfl⟩, rfl, getKey_deleteKey ..⟩
        · rw [if_neg h4] at hreq
          cases hreq
      · rw [if_neg h3] at hreq
        cases hreq

/-- An agent with a restricted write policy, for the witnesses. -/
def gateAgent : Agent :=
  { name := "a".data, path := "agents/a.md".data, write := some ["notes/*".data] }

/-- A Bash tool input fixture. -/
def bashInput : ToolInput := { file_path := none, path := none, command := some "rm x".data }

/-- The permission request minted for `bashInput` under `gateAgent`. -/
def bashRequest : PermissionRequest :=
  { id := "sid-tu1".data, toolName := "Bash".data, filePath := "rm x".data,
    agentName := "a".data, agentPath := "agents/a.md".data,
    allowedPatterns := ["notes/*".data], timestamp := 0, status := "pending".data }

/-- Witness for C2: a concrete Bash approval that times out. -/
theorem permission_timeout_and_cleanup_witness :
    (canUseTool (fun _ _ => false) "v".data gateAgent "sid".data 0 "Bash".data
        bashInput "tu1".data none []).decision.behavior = .deny
    ∧ (canUseTool (fun _ _ => false) "v".data gateAgent "sid".data 0 "Bash".data
        bashInput "tu1".data none []).decision.interrupt = some false
    ∧ (canUseTool (fun _ _ => false) "v".data gateAgent "sid".data 0 "Bash".data
        bashInput "tu1".data none []).denials
      = [⟨"Bash".data, "rm x".data, "timeout".data⟩]
    ∧ getKey (canUseTool (fun _ _ => false) "v".data gateAgent "sid".data 0
        "Bash".data bashInput "tu1".data none []).pending "sid-tu1".data = none := by
  have h := (permission_timeout_and_cleanup (fun _ _ => false) "v".data gateAgent
    "sid".data 0 "Bash".data bashInput "tu1".data none []).2 bashRequest (by decide)
  obtain ⟨h1, _, h3⟩ := h
  have ht := h1 (Or.inl rfl)
  exact ⟨ht.1, ht.2.2.1, ht.2.2.2, h3⟩

/-- C7: for the shell tool with a command, the callback allows
unconditionally (creating no request) exactly when the agent's write
patterns (defaulting to `['*']`) include `'*'`; otherwise it always
creates a pending request with id `<session-id>-<tool-use-id>` whose
displayed subject is the command string and awaits the external
grant/deny/timeout decision - the command is never matched against the
write globs. -/
theorem bash_permission_policy (matchesPatterns : Str → List Str → Bool)
    (vaultPath : Str) (agent : Agent) (sessionId : Str) (now : Nat)
    (input : ToolInput) (toolUseID : Str)
    (externalResponse : Option (Nat × Bool))
    (pending : List (Str × PermissionRequest)) (cmd : Str)
    (hcmd : input.command = some cmd) (hne : cmd ≠ []) :
    ((agent.write.getD ["*".data]).contains "*".data = true →
      canUseTool matchesPatterns vaultPath agent sessionId now "Bash".data input
        toolUseID externalResponse pending
        = ⟨allowDecision, pending, [], none⟩)
    ∧ ((agent.write.getD ["*".data]).contains "*".data = false →
      (∃ req, (canUseTool matchesPatterns vaultPath agent sessionId now
          "Bash".data input toolUseID externalResponse pending).requested = some req
        ∧ req.id = sessionId ++ "-".data ++ toolUseID
        ∧ req.toolName = "Bash".data
        ∧ req.filePath = cmd
        ∧ req.status = "pending".data)
      ∧ (∀ mp2, canUseTool mp2 vaultPath agent sessionId now "Bash".data input
          toolUseID externalResponse pending
          = canUseTool matchesPatterns vaultPath agent sessionId now "Bash".data
            input toolUseID externalResponse pending)
      ∧ (raceDecision externalResponse = .granted →
          (canUseTool matchesPatterns vaultPath agent sessionId now "Bash".data
            input toolUseID externalResponse pending).decision = allowDecision)
      ∧ (raceDecision externalResponse = .denied →
          (canUseTool matchesPatterns vaultPath agent sessionId now "Bash".data
            input toolUseID externalResponse pending).decision.behavior = .deny)
      ∧ (raceDecision externalResponse = .timeout →
          (canUseTool matchesPatterns vaultPath agent sessionId now "Bash".data
            input toolUseID externalResponse pending).decision.behavior = .deny)) := by
  have h1 : "Bash".data = "Bash".data ∧ truthyS input.command = true := by
    simp [hcmd, truthyS, hne]
  constructor
  · intro hfull
    unfold canUseTool
    dsimp only
    rw [if_pos h1, if_pos hfull]
  · intro hfull
    have hfull' : ¬ (agent.write.getD ["*".data]).contains "*".data = true := by
      rw [hfull]
      exact Bool.false_ne_true
    unfold canUseTool
    dsimp only
    rw [if_pos h1, if_neg hfull']
    have hgd : input.command.getD [] = cmd := by rw [hcmd]; rfl
    refine ⟨⟨⟨sessionId ++ "-".data ++ toolUseID, "Bash".data,
        input.command.getD [], agent.name, agent.path,
        agent.write.getD ["*".data], now, "pending".data⟩,
        ?_, rfl, rfl, hgd, rfl⟩, ?_, ?_, ?_, ?_⟩
    · cases hd : raceDecision externalResponse <;> simp only [hd]
    · intro mp2
      rw [if_pos h1]
    · intro hd
      rw [hd]
    · intro hd
      rw [hd]
      rfl
    · intro hd
      rw [hd]
      rfl

/-- Witness for C7 at a concrete agent with full write access and at
`gateAgent` without it. -/
theorem bash_permission_policy_witness :
    canUseTool (fun _ _ => false) "v".data
        ⟨"b".data, "agents/b.md".data, none⟩ "sid".data 0 "Bash".data
        bashInput "tu1".data none []
      = ⟨allowDecision, [], [], none⟩
    ∧ (canUseTool (fun _ _ => false) "v".data gateAgent "sid".data 0 "Bash".data
        bashInput "tu1".data none []).requested.isSome = true := by
  constructor
  · exact (bash_permission_policy (fun _ _ => false) "v".data
      ⟨"b".data, "agents/b.md".data, none⟩ "sid".data 0 bashInput "tu1".data
      none [] "rm x".data rfl (by decide)).1 (by decide)
  · obtain ⟨⟨req, hreq, -⟩, -⟩ := (bash_permission_policy (fun _ _ => false)
      "v".data gateAgent "sid".data 0 bashInput "tu1".data none [] "rm x".data
      rfl (by decide)).2 (by decide)
    rw [hreq]
    rfl

/-- C8: `grantPermission`/`denyPermission` return `true`, resolve the
slot, update the status and emit the event only when the id is pending;
on an absent or already-resolved id they return `false`, emit nothing
and change no state, so repeated calls after the first are no-ops. -/
theorem grant_deny_idempotent (st : BrokerState) (requestId : Str) :
    (∀ req, getKey st.pending requestId = some req →
      req.status = "pending".data →
      (grantPermission st requestId).1 = true
      ∧ (grantPermission st requestId).2.events
        = st.events ++ [("permissionGranted".data, requestId)]
      ∧ (grantPermission st requestId).2.resolutions
        = st.resolutions ++ [(requestId, "granted".data)]
      ∧ (denyPermission st requestId).1 = true
      ∧ (denyPermission st requestId).2.events
        = st.events ++ [("permissionDenied".data, requestId)]
      ∧ (denyPermission st requestId).2.resolutions
        = st.resolutions ++ [(requestId, "denied".data)])
    ∧ (getKey st.pending requestId = none →
        grantPermission st requestId = (false, st)
        ∧ denyPermission st requestId = (false, st))
    ∧ (∀ req, getKey st.pending requestId = some req →
        req.status ≠ "pending".data →
        grantPermission st requestId = (false, st)
        ∧ denyPermission st requestId = (false, st))
    ∧ (∀ st', grantPermission st requestId = (true, st') →
        grantPermission st' requestId = (false, st')
        ∧ denyPermission st' requestId = (false, st'))
    ∧ (∀ st', denyPermission st requestId = (true, st') →
        grantPermission st' requestId = (false, st')
        ∧ denyPermission st' requestId = (false, st')) := by
  refine ⟨?_, ?_, ?_, ?_, ?_⟩
  · intro req hget hst
    unfold grantPermission denyPermission
    rw [hget]
    dsimp only
    simp [if_pos hst]
  · intro hget
    unfold grantPermission denyPermission
    rw [hget]
    exact ⟨rfl, rfl⟩
  · intro req hget hst
    unfold grantPermission denyPermission
    rw [hget]
    dsimp only
    simp [if_neg hst]
  · intro st' hgr
    unfold grantPermission at hgr
    rcases hget : getKey st.pending requestId with _ | req <;> rw [hget] at hgr
    · cases hgr
    · dsimp only at hgr
      by_cases hst : req.status = "pending".data
      · rw [if_pos hst] at hgr
        have hst2 := congrArg Prod.snd hgr
        dsimp only at hst2
        subst hst2
        have hnew : getKey (setKey st.pending requestId
            { req with status := "granted".data }) requestId
            = some { req with status := "granted".data } := getKey_setKey ..
        unfold grantPermission denyPermission
        dsimp only
        rw [hnew]
        dsimp only
        rw [if_neg (by decide), if_neg (by decide)]
        exact ⟨rfl, rfl⟩
      · rw [if_neg hst] at hgr
        cases hgr
  · intro st' hgr
    unfold denyPermission at hgr
    rcases hget : getKey st.pending requestId with _ | req <;> rw [hget] at hgr
    · cases hgr
    · dsimp only at hgr
      by_cases hst : req.status = "pending".data
      · rw [if_pos hst] at hgr
        have hst2 := congrArg Prod.snd hgr
        dsimp only at hst2
        subst hst2
        have hnew : getKey (setKey st.pending requestId
            { req with status := "denied".data }) requestId
            = some { req with status := "denied".data } := getKey_setKey ..
        unfold grantPermission denyPermission
        dsimp only
        rw [hnew]
        dsimp only
        rw [if_neg (by decide), if_neg (by decide)]
        exact ⟨rfl, rfl⟩
      · rw [if_neg hst] at hgr
        cases hgr

/-- A broker state with one pending request, for the C8 witness. -/
def brokerFixture : BrokerState :=
  { pending := [("sid-tu1".data, bashRequest)], resolutions := [], events := [] }

/-- Witness for C8: granting the pending fixture succeeds once and the
second grant (and a deny) are no-ops; an unknown id is a no-op. -/
theorem grant_deny_idempotent_witness :
    (grantPermission brokerFixture "sid-tu1".data).1 = true
    ∧ grantPermission (grantPermission brokerFixture "sid-tu1".data).2 "sid-tu1".data
      = (false, (grantPermission brokerFixture "sid-tu1".data).2)
    ∧ denyPermission (grantPermission brokerFixture "sid-tu1".data).2 "sid-tu1".data
      = (false, (grantPermission brokerFixture "sid-tu1".data).2)
    ∧ grantPermission brokerFixture "nope".data = (false, brokerFixture) := by
  have h := grant_deny_idempotent brokerFixture "sid-tu1".data
  have h1 := h.1 bashRequest (by decide) (by decide)
  have h4 := h.2.2.2.1 (grantPermission brokerFixture "sid-tu1".data).2
    (by rw [Prod.mk.injEq]; exact ⟨h1.1, rfl⟩)
  refine ⟨h1.1, h4.1, h4.2, ?_⟩
  exact ((grant_deny_idempotent brokerFixture "nope".data).2.1 (by decide)).1

/-- `orchestratorEnqueue` succeeding appends exactly one item at the
requested depth. -/
theorem orchestratorEnqueue_ok_items {config : OrchConfig} {q q' : QueueState}
    {agentPath : Str} {d : Nat} {optPriority : Option Nat} {i : Nat}
    (h : orchestratorEnqueue config q agentPath (some d) optPriority = .ok (q', i)) :
    q'.items = q.items
      ++ [⟨q.nextId, agentPath, d, optPriority.getD priorityNormal⟩] := by
  unfold orchestratorEnqueue queueEnqueue at h
  dsimp only at h
  split_ifs at h <;> cases h <;> simp

/-- Items after spawn processing: either pre-existing, or enqueued at
`depth + 1` under the depth guard. -/
theorem processSpawnRequests_items (config : OrchConfig) (depth : Nat) :
    ∀ (q : QueueState) (spawns : List Str),
      ∀ it ∈ (processSpawnRequests config depth q spawns).1.items,
        it ∈ q.items ∨ (it.depth = depth + 1 ∧ depth + 1 < config.maxDepth) := by
  intro q spawns
  induction spawns generalizing q with
  | nil => intro it hit; exact Or.inl hit
  | cons s rest ih =>
    intro it hit
    unfold processSpawnRequests at hit
    split_ifs at hit with h1
    · rcases hok : orchestratorEnqueue config q s (some (depth + 1)) none
        with _ | ⟨q2, i⟩ <;> rw [hok] at hit
      · exact Or.inl hit
      · rcases ih q2 it hit with h2 | h2
        · rw [orchestratorEnqueue_ok_items hok] at h2
          rcases List.mem_append.mp h2 with hold | hnew
          · exact Or.inl hold
          · simp only [List.mem_singleton] at hnew
            subst hnew
            exact Or.inr ⟨rfl, h1⟩
        · exact Or.inr h2
    · exact ih q it hit

/-- C3: no queue item ever reaches the configured maximum depth: an
enqueue at `depth ≥ maxDepth` throws and adds nothing, a successful
enqueue preserves the depth invariant, and every spawn-induced enqueue
from `executeAgent` runs at `depth = parent + 1`, skipped with only a
warning when `parent + 1 ≥ maxDepth`. -/
theorem depth_invariant (config : OrchConfig) (q : QueueState) (agentPath : Str)
    (optDepth optPriority : Option Nat) (depth : Nat) (spawns : List Str) :
    (optDepth.getD 0 ≥ config.maxDepth →
      ∃ e, orchestratorEnqueue config q agentPath optDepth optPriority = .error e)
    ∧ ((∀ it ∈ q.items, it.depth < config.maxDepth) →
        ∀ q' i, orchestratorEnqueue config q agentPath optDepth optPriority
          = .ok (q', i) →
        ∀ it ∈ q'.items, it.depth < config.maxDepth)
    ∧ (depth + 1 ≥ config.maxDepth →
        (processSpawnRequests config depth q spawns).1 = q
        ∧ (processSpawnRequests config depth q spawns).2.length = spawns.length)
    ∧ (∀ it ∈ (processSpawnRequests config depth q spawns).1.items,
        it ∈ q.items ∨ it.depth = depth + 1)
    ∧ ((∀ it ∈ q.items, it.depth < config.maxDepth) →
        ∀ it ∈ (processSpawnRequests config depth q spawns).1.items,
          it.depth < config.maxDepth) := by
  refine ⟨?_, ?_, ?_, ?_, ?_⟩
  · intro hd
    unfold orchestratorEnqueue
    dsimp only
    rw [if_pos hd]
    exact ⟨_, rfl⟩
  · intro hinv q' i hok it hit
    unfold orchestratorEnqueue queueEnqueue at hok
    dsimp only at hok
    split_ifs at hok with h1 h2 <;> cases hok
    have hmem : it ∈ q.items
        ∨ it = ⟨q.nextId, agentPath, optDepth.getD 0,
            optPriority.getD priorityNormal⟩ := by simpa using hit
    rcases hmem with hold | hnew
    · exact hinv it hold
    · subst hnew
      simpa using Nat.lt_of_not_le (fun hc => h1 hc)
  · intro hd
    induction spawns with
    | nil => exact ⟨rfl, rfl⟩
    | cons s rest ih =>
      unfold processSpawnRequests
      rw [if_neg (by omega)]
      exact ⟨ih.1, by simpa using ih.2⟩
  · intro it hit
    rcases processSpawnRequests_items config depth q spawns it hit with hold | hdep
    · exact Or.inl hold
    · exact Or.inr hdep.1
  · intro hinv it hit
    rcases processSpawnRequests_items config depth q spawns it hit with hold | hdep
    · exact hinv it hold
    · omega

/-- Witness for C3 at `maxDepth = 3`: enqueueing at depth 3 throws, and
a spawn from a depth-2 parent is skipped with one warning. -/
theorem depth_invariant_witness :
    (∃ e, orchestratorEnqueue ⟨3⟩ ⟨[], 0⟩ "agents/a.md".data (some 3) none
      = .error e)
    ∧ (processSpawnRequests ⟨3⟩ 2 ⟨[], 0⟩ ["agents/b.md".data]).1 = ⟨[], 0⟩
    ∧ (processSpawnRequests ⟨3⟩ 2 ⟨[], 0⟩ ["agents/b.md".data]).2.length = 1 := by
  have h := depth_invariant ⟨3⟩ ⟨[], 0⟩ "agents/a.md".data (some 3) none 2
    ["agents/b.md".data]
  have h3 := h.2.2.1 (by decide)
  exact ⟨h.1 (by decide), h3.1, h3.2⟩

/-- Events other than the leading session event and the terminal
done/error of a chat stream. -/
def isMidEvent : StreamEvent → Bool
  | .init _ _ => true
  | .text _ _ => true
  | .toolUse _ _ _ => true
  | _ => false

theorem stepBlock_mid (acc : StreamAcc) (b : SdkBlock)
    (h : ∀ e ∈ acc.events, isMidEvent e = true) :
    ∀ e ∈ (stepBlock acc b).events, isMidEvent e = true := by
  cases b with
  | text s =>
    simp only [stepBlock]
    split_ifs
    · intro e he
      rcases List.mem_append.mp he with h1 | h1
      · exact h e h1
      · simp only [List.mem_singleton] at h1
        subst h1
        rfl
    · exact h
  | toolUse i n inp =>
    intro e he
    rcases List.mem_append.mp he with h1 | h1
    · exact h e h1
    · simp only [List.mem_singleton] at h1
      subst h1
      rfl

theorem foldl_stepBlock_mid (blocks : List SdkBlock) :
    ∀ acc, (∀ e ∈ acc.events, isMidEvent e = true) →
      ∀ e ∈ (blocks.foldl stepBlock acc).events, isMidEvent e = true := by
  induction blocks with
  | nil => intro acc h; exact h
  | cons b rest ih => intro acc h; exact ih _ (stepBlock_mid acc b h)

theorem stepMsg_mid (acc : StreamAcc) (m : SdkMsg)
    (h : ∀ e ∈ acc.events, isMidEvent e = true) :
    ∀ e ∈ (stepMsg acc m).events, isMidEvent e = true := by
  cases m with
  | sysInit tools pm =>
    intro e he
    rcases List.mem_append.mp he with h1 | h1
    · exact h e h1
    · simp only [List.mem_singleton] at h1
      subst h1
      rfl
  | assistant blocks => exact foldl_stepBlock_mid blocks acc h
  | result res =>
    cases res with
    | none => exact h
    | some r =>
      intro e he
      rcases List.mem_append.mp he with h1 | h1
      · exact h e h1
      · simp only [List.mem_singleton] at h1
        subst h1
        rfl
  | other => exact h

theorem foldl_stepMsg_mid (msgs : List SdkMsg) :
    ∀ acc, (∀ e ∈ acc.events, isMidEvent e = true) →
      ∀ e ∈ (msgs.foldl stepMsg acc).events, isMidEvent e = true := by
  induction msgs with
  | nil => intro acc h; exact h
  | cons m rest ih => intro acc h; exact ih _ (stepMsg_mid acc m h)

/-- C9: every chat stream starts with the session event (carrying the
session id and resume info), continues with zero or more init, text and
tool-use events, and ends with exactly one terminal event - done on
success, error on failure - after which nothing follows. -/
theorem streaming_event_shape (session : Session) (ri : ResumeInfo)
    (msgs : List SdkMsg) (failAfter : Option (Nat × Str)) :
    ∃ mid : List StreamEvent,
      (∀ e ∈ mid, isMidEvent e = true)
      ∧ ((failAfter = none
          ∧ executeChatbotAgentStreaming session ri msgs failAfter
            = .session session.id ri :: mid
              ++ [.done (msgs.foldl stepMsg ⟨[], [], []⟩).result session.id])
        ∨ (∃ k errMsg, failAfter = some (k, errMsg)
          ∧ executeChatbotAgentStreaming session ri msgs failAfter
            = .session session.id ri :: mid ++ [.error errMsg session.id])) := by
  cases failAfter with
  | none =>
    exact ⟨(msgs.foldl stepMsg ⟨[], [], []⟩).events,
      foldl_stepMsg_mid msgs _ (by intro e he; cases he),
      Or.inl ⟨rfl, rfl⟩⟩
  | some ke =>
    obtain ⟨k, errMsg⟩ := ke
    exact ⟨((msgs.take k).foldl stepMsg ⟨[], [], []⟩).events,
      foldl_stepMsg_mid _ _ (by intro e he; cases he),
      Or.inr ⟨k, errMsg, rfl, rfl⟩⟩

/-- C10: a message added under a session key absent from the loaded map
is silently dropped (no state change), `getMessages` returns `[]` for
such keys, and this state is reachable by `evictStaleSessions` evicting
an idle session while its index entry (and file) remain. -/
theorem addMessage_unloaded_dropped (st : SMState) (pt : Str → Nat)
    (tnow : Nat) (now key role content : Str) :
    (getKey st.loadedSessions key = none →
      addMessage st now key role content = st ∧ getMessages st key = [])
    ∧ ((∀ s, (key, s) ∈ st.loadedSessions →
          tnow - pt s.lastAccessed > cacheMaxAge) →
        getKey (evictStaleSessions pt tnow st).1.loadedSessions key = none
        ∧ (evictStaleSessions pt tnow st).1.sessionIndex = st.sessionIndex
        ∧ addMessage (evictStaleSessions pt tnow st).1 now key role content
          = (evictStaleSessions pt tnow st).1
        ∧ getMessages (evictStaleSessions pt tnow st).1 key = []) := by
  have hmain : ∀ st2 : SMState, getKey st2.loadedSessions key = none →
      addMessage st2 now key role content = st2 ∧ getMessages st2 key = [] := by
    intro st2 hget
    unfold addMessage getMessages
    rw [hget]
    exact ⟨rfl, rfl⟩
  refine ⟨hmain st, ?_⟩
  intro hstale
  have hnone : getKey (evictStaleSessions pt tnow st).1.loadedSessions key
      = none := by
    unfold evictStaleSessions
    dsimp only
    apply getKey_filter_none
    intro kv hmem hk
    have hmem' : (key, kv.2) ∈ st.loadedSessions := by
      rw [← hk, Prod.mk.eta]
      exact hmem
    have hst := hstale kv.2 hmem'
    simp [hst]
  exact ⟨hnone, rfl, (hmain _ hnone).1, (hmain _ hnone).2⟩

/-- A loaded session fixture for the C10 witness, idle since epoch. -/
def staleState : SMState :=
  { sessionIndex := [("k".data, ⟨"abc".data, "f.md".data, 1⟩)],
    loadedSessions := [("k".data, resumeSession)] }

/-- Witness for C10: after eviction at a late clock, a message add on
the evicted key is a no-op, `getMessages` is empty, and the index entry
survives. -/
theorem addMessage_unloaded_dropped_witness :
    getKey (evictStaleSessions (fun _ => 0) 10000000 staleState).1.loadedSessions
      "k".data = none
    ∧ (evictStaleSessions (fun _ => 0) 10000000 staleState).1.sessionIndex
      = staleState.sessionIndex
    ∧ addMessage (evictStaleSessions (fun _ => 0) 10000000 staleState).1
        "t".data "k".data "user".data "hi".data
      = (evictStaleSessions (fun _ => 0) 10000000 staleState).1
    ∧ getMessages (evictStaleSessions (fun _ => 0) 10000000 staleState).1
        "k".data = [] := by
  exact (addMessage_unloaded_dropped staleState (fun _ => 0) 10000000
    "t".data "k".data "user".data "hi".data).2 (fun s _ => by decide)

/-! ## Characterisation of the context builder (C6) -/

/-- `Math.ceil(msg.content.length / 4)`. -/
def tokensOf (m : Message) : Nat := (m.content.length + 3) / 4

/-- The non-system messages of a list. -/
def nonSystem (ms : List Message) : List Message :=
  ms.filter (fun m => m.role ≠ "system".data)

/-- Token estimate of the non-system messages of a list. -/
def sumTokens (ms : List Message) : Nat := ((nonSystem ms).map tokensOf).sum

/-- The truncation marker inserted by `buildContextFromHistory`. -/
def omittedMarker (i : Nat) : Message :=
  ⟨"system".data, [],
   "[".data ++ natToStr i ++ " earlier messages omitted for context limits]".data⟩

/-- The conversation-history formatting applied by
`buildContextFromHistory` to the collected messages. -/
def formatContext (ms : List Message) : Str :=
  List.intercalate "\n\n".data
    (ms.map (fun m => "### ".data ++ capitalizeRole m.role ++ "\n".data ++ m.content))

theorem sumTokens_nil : sumTokens [] = 0 := rfl

theorem nonSystem_cons_sys {m : Message} (h : m.role = "system".data)
    (ms : List Message) : nonSystem (m :: ms) = nonSystem ms := by
  simp [nonSystem, List.filter_cons, h]

theorem nonSystem_cons {m : Message} (h : m.role ≠ "system".data)
    (ms : List Message) : nonSystem (m :: ms) = m :: nonSystem ms := by
  simp [nonSystem, List.filter_cons, h]

theorem sumTokens_cons_sys {m : Message} (h : m.role = "system".data)
    (ms : List Message) : sumTokens (m :: ms) = sumTokens ms := by
  simp [sumTokens, nonSystem_cons_sys h]

theorem sumTokens_cons {m : Message} (h : m.role ≠ "system".data)
    (ms : List Message) : sumTokens (m :: ms) = tokensOf m + sumTokens ms := by
  simp [sumTokens, nonSystem_cons h]

theorem nonSystem_reverse (ms : List Message) :
    nonSystem ms.reverse = (nonSystem ms).reverse := by
  simp [nonSystem, List.filter_reverse]

theorem sumTokens_reverse (ms : List Message) :
    sumTokens ms.reverse = sumTokens ms := by
  simp [sumTokens, nonSystem_reverse, List.map_reverse, List.sum_reverse]

/-- The walk when every processed message fits: all non-system messages
are collected (in order) and the estimate is the total. -/
theorem buildLoop_fits (budget : Nat) :
    ∀ (r : List Message) (t : Nat),
      (∀ a m b, r = a ++ m :: b → m.role ≠ "system".data →
        t + sumTokens a + tokensOf m ≤ budget) →
      buildLoop budget r t = ((nonSystem r).reverse, t + sumTokens r) := by
  intro r
  induction r with
  | nil => intro t _; simp [buildLoop, nonSystem, sumTokens]
  | cons m r' ih =>
    intro t hfit
    by_cases hm : m.role = "system".data
    · rw [buildLoop, if_pos hm]
      rw [ih t (fun a m' b hsplit hrole => by
        have h2 := hfit (m :: a) m' b (by rw [hsplit]; rfl) hrole
        rwa [sumTokens_cons_sys hm] at h2)]
      rw [nonSystem_cons_sys hm, sumTokens_cons_sys hm]
    · rw [buildLoop, if_neg hm]
      have hfit0 := hfit [] m r' rfl hm
      rw [sumTokens_nil] at hfit0
      simp only [tokensOf] at hfit0
      rw [if_neg (by omega)]
      rw [ih (t + (m.content.length + 3) / 4) (fun a m' b hsplit hrole => by
        have h2 := hfit (m :: a) m' b (by rw [hsplit]; rfl) hrole
        rw [sumTokens_cons hm] at h2
        simp only [tokensOf] at h2 ⊢
        omega)]
      dsimp only
      rw [nonSystem_cons hm, sumTokens_cons hm, List.reverse_cons]
      simp only [tokensOf, Prod.mk.injEq]
      exact ⟨by trivial, by omega⟩

/-- The walk when it overflows at `m` after processing `r1`: everything
up to the overflow is kept, everything from `m` on is dropped, and a
marker carrying the count of the *remaining* (not yet visited) messages
is prepended only when that count is positive. -/
theorem buildLoop_overflow (budget : Nat) :
    ∀ (r1 : List Message) (m : Message) (r2 : List Message) (t : Nat),
      (∀ a m' b, r1 = a ++ m' :: b → m'.role ≠ "system".data →
        t + sumTokens a + tokensOf m' ≤ budget) →
      m.role ≠ "system".data →
      t + sumTokens r1 + tokensOf m > budget →
      buildLoop budget (r1 ++ m :: r2) t
        = ((if 0 < r2.length then [omittedMarker r2.length] else [])
            ++ (nonSystem r1).reverse,
           t + sumTokens r1) := by
  intro r1
  induction r1 with
  | nil =>
    intro m r2 t _ hm hover
    rw [sumTokens_nil] at hover
    simp only [tokensOf] at hover
    rw [List.nil_append, buildLoop, if_neg hm]
    rw [if_pos (by omega)]
    by_cases h2 : 0 < r2.length <;>
      simp [h2, nonSystem, sumTokens, omittedMarker]
  | cons m1 r1' ih =>
    intro m r2 t hfit hm hover
    by_cases hm1 : m1.role = "system".data
    · rw [List.cons_append, buildLoop, if_pos hm1]
      rw [ih m r2 t (fun a m' b hsplit hrole => by
        have h2 := hfit (m1 :: a) m' b (by rw [hsplit]; rfl) hrole
        rwa [sumTokens_cons_sys hm1] at h2) hm
        (by rwa [sumTokens_cons_sys hm1] at hover)]
      rw [nonSystem_cons_sys hm1, sumTokens_cons_sys hm1]
    · rw [List.cons_append, buildLoop, if_neg hm1]
      have hfit0 := hfit [] m1 r1' rfl hm1
      rw [sumTokens_nil] at hfit0
      simp only [tokensOf] at hfit0
      rw [if_neg (by omega)]
      rw [ih m r2 (t + (m1.content.length + 3) / 4) (fun a m' b hsplit hrole => by
        have h2 := hfit (m1 :: a) m' b (by rw [hsplit]; rfl) hrole
        rw [sumTokens_cons hm1] at h2
        simp only [tokensOf] at h2 ⊢
        omega) hm
        (by rw [sumTokens_cons hm1] at hover
            simp only [tokensOf] at hover ⊢
            omega)]
      dsimp only
      rw [nonSystem_cons hm1, sumTokens_cons hm1, List.reverse_cons]
      simp only [tokensOf, Prod.mk.injEq, List.append_assoc]
      exact ⟨by trivial, by omega⟩

theorem nonSystem_idem (ms : List Message) :
    (nonSystem ms).filter (fun m => m.role ≠ "system".data) = nonSystem ms := by
  simp only [nonSystem, List.filter_filter]
  congr 1
  funext a
  exact Bool.and_self _

theorem filter_marker_part (i : Nat) (c : Prop) [Decidable c] :
    ((if c then [omittedMarker i] else []) : List Message).filter
      (fun m => m.role ≠ "system".data) = [] := by
  split_ifs <;> simp [omittedMarker]

/-- `buildContextFromHistory` when every message fits the budget:
all non-system messages are used, no marker appears. -/
theorem buildContextFromHistory_fits (ms : List Message) (hne : ms ≠ [])
    (hfits : ∀ a m' b, ms = a ++ m' :: b → m'.role ≠ "system".data →
      sumTokens b + tokensOf m' ≤ contextTokenBudget) :
    buildContextFromHistory ms
      = ⟨formatContext (nonSystem ms), (nonSystem ms).length, sumTokens ms⟩ := by
  unfold buildContextFromHistory
  rw [if_neg (by simpa using hne)]
  rw [buildLoop_fits contextTokenBudget ms.reverse 0 (by
    intro a m' b hsplit hrole
    have hsplit2 : ms = b.reverse ++ m' :: a.reverse := by
      have h3 := congrArg List.reverse hsplit
      simpa [List.reverse_append, List.append_assoc] using h3
    have h4 := hfits b.reverse m' a.reverse hsplit2 hrole
    rw [sumTokens_reverse] at h4
    omega)]
  dsimp only
  rw [nonSystem_reverse, List.reverse_reverse, sumTokens_reverse, nonSystem_idem]
  rw [Nat.zero_add]
  rfl

/-- `buildContextFromHistory` when the newest-first walk overflows at
`m` (all of `newer` fitting): everything from `m` back is dropped; the
marker carries `older.length` - the number of messages strictly before
`m` - and appears only when that count is positive, although `m` itself
is also omitted. -/
theorem buildContextFromHistory_overflow (older newer : List Message)
    (m : Message) (hrole : m.role ≠ "system".data)
    (hfits : ∀ a m' b, newer = a ++ m' :: b → m'.role ≠ "system".data →
      sumTokens b + tokensOf m' ≤ contextTokenBudget)
    (hover : sumTokens newer + tokensOf m > contextTokenBudget) :
    buildContextFromHistory (older ++ m :: newer)
      = ⟨formatContext ((if 0 < older.length then [omittedMarker older.length]
            else []) ++ nonSystem newer),
         (nonSystem newer).length, sumTokens newer⟩ := by
  unfold buildContextFromHistory
  rw [if_neg (by simp)]
  have hrev : (older ++ m :: newer).reverse
      = newer.reverse ++ m :: older.reverse := by
    simp [List.reverse_append, List.append_assoc]
  rw [hrev]
  have hfits2 : ∀ a m' b, newer.reverse = a ++ m' :: b →
      m'.role ≠ "system".data →
      0 + sumTokens a + tokensOf m' ≤ contextTokenBudget := by
    intro a m' b hsplit hrole2
    have hsplit2 : newer = b.reverse ++ m' :: a.reverse := by
      have h3 := congrArg List.reverse hsplit
      simpa [List.reverse_append, List.append_assoc] using h3
    have h4 := hfits b.reverse m' a.reverse hsplit2 hrole2
    rw [sumTokens_reverse] at h4
    omega
  rw [buildLoop_overflow contextTokenBudget newer.reverse m older.reverse 0
    hfits2 hrole (by rw [sumTokens_reverse]; omega)]
  dsimp only
  rw [List.length_reverse, nonSystem_reverse, List.reverse_reverse,
    sumTokens_reverse]
  rw [List.filter_append, filter_marker_part, nonSystem_idem, List.nil_append,
    Nat.zero_add]
  rfl

/-- C6 (amended): `buildContextFromHistory` walks newest-first, skips
system messages and accumulates while the estimate stays within the
50000-token budget.  When nothing overflows, every non-system message
is used and no marker appears.  When the walk overflows at a message
`m` preceded (chronologically) by `older`, all of `older ++ [m]` is
omitted; a marker `[N earlier messages omitted for context limits]` is
prepended only when `N = older.length` is positive - so `N` counts the
messages strictly before `m`, one fewer than the number omitted, and an
overflow at the very first walkable message omits it without any
marker.  `messagesUsed` counts the included non-system messages and
`tokensEstimate` is the accumulated estimate. -/
theorem buildContext_truncation (ms older newer : List Message) (m : Message) :
    (ms ≠ [] →
      (∀ a m' b, ms = a ++ m' :: b → m'.role ≠ "system".data →
        sumTokens b + tokensOf m' ≤ contextTokenBudget) →
      buildContextFromHistory ms
        = ⟨formatContext (nonSystem ms), (nonSystem ms).length, sumTokens ms⟩)
    ∧ (m.role ≠ "system".data →
      (∀ a m' b, newer = a ++ m' :: b → m'.role ≠ "system".data →
        sumTokens b + tokensOf m' ≤ contextTokenBudget) →
      sumTokens newer + tokensOf m > contextTokenBudget →
      buildContextFromHistory (older ++ m :: newer)
        = ⟨formatContext ((if 0 < older.length then [omittedMarker older.length]
              else []) ++ nonSystem newer),
           (nonSystem newer).length, sumTokens newer⟩) :=
  ⟨buildContextFromHistory_fits ms,
   fun hrole hfits hover =>
     buildContextFromHistory_overflow older newer m hrole hfits hover⟩

/-- One-token message fixtures for the truncation counterexample. -/
def cexLast : Message := ⟨"user".data, "t2".data, "hi!!".data⟩

/-- The earliest message of the counterexample. -/
def cexSmall : Message := ⟨"user".data, "t0".data, "hey!".data⟩

/-- A 200000-character message estimated at exactly the 50000-token
budget. -/
def cexHuge : Message :=
  ⟨"user".data, "t1".data, List.replicate 200000 (Char.ofNat 97)⟩

/-- Splits of a one-element list, for discharging the fits hypothesis
at concrete inputs. -/
theorem fits_singleton (x : Message)
    (hx : tokensOf x ≤ contextTokenBudget) :
    ∀ a m' b, [x] = a ++ m' :: b → m'.role ≠ "system".data →
      sumTokens b + tokensOf m' ≤ contextTokenBudget := by
  intro a m' b hsplit _
  rcases a with _ | ⟨y, a'⟩
  · simp only [List.nil_append, List.cons.injEq] at hsplit
    obtain ⟨rfl, rfl⟩ := hsplit
    simpa [sumTokens, nonSystem] using hx
  · simp only [List.cons_append, List.cons.injEq] at hsplit
    exact absurd hsplit.2 (by simp)

/-- C6 counterexample: with three user messages where the walk
overflows at the middle one, two messages (`cexSmall` and `cexHuge`)
are omitted - three non-system messages, one used - yet the marker
reads `[1 earlier messages omitted for context limits]`, not `[2 ...]`;
and when the overflow happens at the earliest walkable message
(`[cexHuge, cexLast]`), one message is omitted with no marker at all. -/
theorem buildContext_marker_counterexample :
    buildContextFromHistory [cexSmall, cexHuge, cexLast]
      = ⟨formatContext [omittedMarker 1, cexLast], 1, 1⟩
    ∧ (nonSystem [cexSmall, cexHuge, cexLast]).length = 3
    ∧ hasSub "[1 earlier messages omitted for context limits]".data
        (buildContextFromHistory [cexSmall, cexHuge, cexLast]).contextString
      = true
    ∧ hasSub "[2 earlier messages omitted for context limits]".data
        (buildContextFromHistory [cexSmall, cexHuge, cexLast]).contextString
      = false
    ∧ buildContextFromHistory [cexHuge, cexLast]
      = ⟨formatContext [cexLast], 1, 1⟩ := by
  have htok : tokensOf cexHuge = 50000 := by
    have hc : cexHuge.content = List.replicate 200000 (Char.ofNat 97) := rfl
    rw [tokensOf, hc, List.length_replicate]
  have hover : sumTokens [cexLast] + tokensOf cexHuge > contextTokenBudget := by
    rw [htok]
    decide
  have hfits := fits_singleton cexLast (by decide)
  have h1 := buildContextFromHistory_overflow [cexSmall] [cexLast] cexHuge
    (by decide) hfits hover
  have h2 := buildContextFromHistory_overflow [] [cexLast] cexHuge
    (by decide) hfits hover
  simp only [List.cons_append, List.nil_append] at h1 h2
  refine ⟨?_, by decide, ?_, ?_, ?_⟩
  · rw [h1]
    decide
  · rw [h1]
    decide
  · rw [h1]
    decide
  · rw [h2]
    decide

/-- Witness for C6's amended claim at a one-message history where
everything fits. -/
theorem buildContext_truncation_witness :
    buildContextFromHistory [cexLast] = ⟨formatContext [cexLast], 1, 1⟩ := by
  rw [(buildContext_truncation [cexLast] [] [] cexLast).1 (by decide)
    (fits_singleton cexLast (by decide))]
  decide

/-! ## Round-trip machinery (C4, C5): front-matter splitting -/

theorem isPrefixOf_append_self (p t : Str) : List.isPrefixOf p (p ++ t) = true :=
  List.isPrefixOf_iff_prefix.mpr (List.prefix_append p t)

theorem expectStr_append_self (p t : Str) : expectStr p (p ++ t) = some t := by
  unfold expectStr
  rw [if_pos (isPrefixOf_append_self p t), List.drop_left]

/-- No newline occurs in the string. -/
def noNl (s : Str) : Bool := s.all (fun c => c ≠ '\n')

/-- Join lines with newline separators (how the front-matter template
lays out its lines; inverse of `splitOnNl`). -/
def joinLines : List Str → Str
  | [] => []
  | [l] => l
  | l :: rest => l ++ "\n".data ++ joinLines rest

theorem isPrefixOf_dashes_cons {c : Char} (hc : c ≠ '\n') (s : Str) :
    List.isPrefixOf "\n---\n".data (c :: s) = false := by
  show ('\n' == c && List.isPrefixOf "---\n".data s) = false
  rw [beq_eq_false_iff_ne.mpr (Ne.symm hc), Bool.false_and]

theorem findSubIdx_skip_line (l : Str) (hno : noNl l = true) (t : Str) :
    findSubIdx "\n---\n".data (l ++ t)
      = (findSubIdx "\n---\n".data t).map (· + l.length) := by
  induction l with
  | nil =>
    cases h : findSubIdx "\n---\n".data t <;> simp [h]
  | cons c l' ih =>
    have hc : c ≠ '\n' := by
      simp only [noNl, List.all_cons, Bool.and_eq_true, decide_eq_true_eq] at hno
      exact hno.1
    have hno' : noNl l' = true := by
      simp only [noNl, List.all_cons, Bool.and_eq_true] at hno
      exact hno.2
    rw [List.cons_append]
    show (if List.isPrefixOf "\n---\n".data (c :: (l' ++ t)) = true then some 0
      else match findSubIdx "\n---\n".data (l' ++ t) with
        | some i => some (i + 1)
        | none => none)
      = (findSubIdx "\n---\n".data t).map (· + (c :: l').length)
    rw [isPrefixOf_dashes_cons hc, if_neg (by simp)]
    rw [ih hno']
    cases h : findSubIdx "\n---\n".data t <;> simp [h] <;> omega

theorem findSubIdx_cons_nl (t : Str)
    (h : List.isPrefixOf "---\n".data t = false) :
    findSubIdx "\n---\n".data ('\n' :: t)
      = (findSubIdx "\n---\n".data t).map (· + 1) := by
  show (if List.isPrefixOf "\n---\n".data ('\n' :: t) = true then some 0
    else match findSubIdx "\n---\n".data t with
      | some i => some (i + 1)
      | none => none)
    = (findSubIdx "\n---\n".data t).map (· + 1)
  have hpre : List.isPrefixOf "\n---\n".data ('\n' :: t) = false := by
    show (('\n' == '\n') && List.isPrefixOf "---\n".data t) = false
    rw [h, Bool.and_false]
  rw [hpre, if_neg (by simp)]
  cases hf : findSubIdx "\n---\n".data t <;> simp [hf]

theorem findSubIdx_self_dashes (t : Str) :
    findSubIdx "\n---\n".data ("\n---\n".data ++ t) = some 0 := by
  show (if List.isPrefixOf "\n---\n".data ("\n---\n".data ++ t) = true
      then some 0
      else match findSubIdx "\n---\n".data ("---\n".data ++ t) with
        | some i => some (i + 1)
        | none => none) = some 0
  rw [isPrefixOf_append_self, if_pos rfl]

theorem not_dashes_head (r : Str) (rs : List Str) (X : Str)
    (h2r : r.head? ≠ some '-') (hX : X.head? = some '\n') :
    List.isPrefixOf "---\n".data (joinLines (r :: rs) ++ X) = false := by
  rcases r with _ | ⟨c, r'⟩
  · rcases rs with _ | ⟨r2, rs'⟩
    · rcases X with _ | ⟨x, X'⟩
      · cases hX
      · have hx : x = '\n' := by simpa using hX
        subst hx
        show (('-' == '\n') && _) = false
        rfl
    · show List.isPrefixOf "---\n".data (([] ++ "\n".data
        ++ joinLines (r2 :: rs')) ++ X) = false
      show (('-' == '\n') && _) = false
      rfl
  · have hc : c ≠ '-' := by
      intro hcc
      exact h2r (by simp [hcc])
    rcases rs with _ | ⟨r2, rs'⟩
    · show (('-' == c) && _) = false
      rw [beq_eq_false_iff_ne.mpr (Ne.symm hc), Bool.false_and]
    · show (('-' == c) && _) = false
      rw [beq_eq_false_iff_ne.mpr (Ne.symm hc), Bool.false_and]

theorem findSubIdx_joinLines (tail : Str) :
    ∀ lines : List Str, lines ≠ [] →
    (∀ l ∈ lines, noNl l = true) →
    (∀ l ∈ lines, l.head? ≠ some '-') →
    findSubIdx "\n---\n".data (joinLines lines ++ ("\n---\n".data ++ tail))
      = some (joinLines lines).length
  | [], hne, _, _ => absurd rfl hne
  | [l], _, h1, _ => by
    rw [show joinLines [l] = l from rfl]
    rw [findSubIdx_skip_line l (h1 l (by simp)) _]
    rw [findSubIdx_self_dashes]
    simp
  | l :: r :: rs, _, h1, h2 => by
    have step := findSubIdx_joinLines tail (r :: rs) (by simp)
      (fun x hx => h1 x (List.mem_cons_of_mem l hx))
      (fun x hx => h2 x (List.mem_cons_of_mem l hx))
    rw [show joinLines (l :: r :: rs) = l ++ "\n".data ++ joinLines (r :: rs)
      from rfl]
    rw [List.append_assoc, List.append_assoc]
    rw [findSubIdx_skip_line l (h1 l (by simp))]
    rw [show ("\n".data ++ (joinLines (r :: rs) ++ ("\n---\n".data ++ tail)))
      = '\n' :: (joinLines (r :: rs) ++ ("\n---\n".data ++ tail)) from rfl]
    rw [findSubIdx_cons_nl _ (not_dashes_head r rs ("\n---\n".data ++ tail)
      (h2 r (by simp)) rfl)]
    rw [step]
    simp [List.length_append]
    omega

/-- `splitFrontmatter` on content laid out as `---`, newline-joined
lines none of which starts with `-`, the closing `---`, and a body. -/
theorem splitFrontmatter_lines (lines : List Str) (tail : Str)
    (hne : lines ≠ [])
    (h1 : ∀ l ∈ lines, noNl l = true)
    (h2 : ∀ l ∈ lines, l.head? ≠ some '-') :
    splitFrontmatter ("---\n".data ++ (joinLines lines
      ++ ("\n---\n".data ++ tail)))
      = some (joinLines lines, tail) := by
  have hdrop : List.drop 4 ("---\n".data
      ++ (joinLines lines ++ ("\n---\n".data ++ tail)))
      = joinLines lines ++ ("\n---\n".data ++ tail) := by
    have h4 : (4 : Nat) = ("---\n".data : Str).length := rfl
    rw [h4, List.drop_left]
  unfold splitFrontmatter
  rw [if_pos (isPrefixOf_append_self ..)]
  dsimp only
  rw [hdrop, findSubIdx_joinLines tail lines hne h1 h2]
  dsimp only
  congr 1
  rw [Prod.mk.injEq]
  refine ⟨List.take_left .., ?_⟩
  rw [← List.append_assoc]
  have h5 : (joinLines lines).length + 5
      = (joinLines lines ++ "\n---\n".data).length := by
    simp [List.length_append]
  rw [h5, List.drop_left]

theorem splitOnNl_noNl (l : Str) (h : noNl l = true) : splitOnNl l = [l] := by
  induction l with
  | nil => rfl
  | cons c rest ih =>
    have hc : c ≠ '\n' := by
      simp only [noNl, List.all_cons, Bool.and_eq_true, decide_eq_true_eq] at h
      exact h.1
    have h' : noNl rest = true := by
      simp only [noNl, List.all_cons, Bool.and_eq_true] at h
      exact h.2
    unfold splitOnNl
    rw [if_neg hc, ih h']

theorem splitOnNl_append_nl (l : Str) (h : noNl l = true) (s : Str) :
    splitOnNl (l ++ '\n' :: s) = l :: splitOnNl s := by
  induction l with
  | nil => rfl
  | cons c rest ih =>
    have hc : c ≠ '\n' := by
      simp only [noNl, List.all_cons, Bool.and_eq_true, decide_eq_true_eq] at h
      exact h.1
    have h' : noNl rest = true := by
      simp only [noNl, List.all_cons, Bool.and_eq_true] at h
      exact h.2
    rw [List.cons_append]
    conv_lhs => unfold splitOnNl
    rw [if_neg hc, ih h']

theorem splitOnNl_joinLines : ∀ lines : List Str, lines ≠ [] →
    (∀ l ∈ lines, noNl l = true) →
    splitOnNl (joinLines lines) = lines
  | [], hne, _ => absurd rfl hne
  | [l], _, h1 => splitOnNl_noNl l (h1 l (by simp))
  | l :: r :: rs, _, h1 => by
    have hj : joinLines (l :: r :: rs) = l ++ '\n' :: joinLines (r :: rs) := by
      rw [show joinLines (l :: r :: rs)
        = l ++ "\n".data ++ joinLines (r :: rs) from rfl]
      simp
    rw [hj]
    rw [splitOnNl_append_nl l (h1 l (by simp))]
    rw [splitOnNl_joinLines (r :: rs) (by simp)
      (fun x hx => h1 x (List.mem_cons_of_mem l hx))]

theorem findIdx?_colon (key : Str) (hk : ∀ c ∈ key, c ≠ ':') (r : Str) :
    ∀ i, List.findIdx? (fun c => c = ':') (key ++ ':' :: r) i
      = some (i + key.length) := by
  induction key with
  | nil => intro i; rw [List.nil_append, List.findIdx?_cons]; simp
  | cons c key' ih =>
    intro i
    have hc : c ≠ ':' := hk c (by simp)
    rw [List.cons_append, List.findIdx?_cons, if_neg (by simpa using hc)]
    rw [ih (fun x hx => hk x (List.mem_cons_of_mem c hx)) (i + 1)]
    simp only [List.length_cons]
    congr 1
    omega

/-- `parseYamlLine` on a line `key:<rawv>` whose key contains no colon:
append the interpreted binding. -/
theorem parseYamlLine_keyval (data : List (Str × YamlVal)) (key rawv : Str)
    (hk : ∀ c ∈ key, c ≠ ':') (hkne : key ≠ []) (hktrim : strTrim key = key) :
    parseYamlLine data (key ++ ':' :: rawv)
      = data ++ [(key, yamlValueOf key (stripQuotes (strTrim rawv)))] := by
  unfold parseYamlLine
  rw [findIdx?_colon key hk rawv 0]
  dsimp only
  rw [if_pos (by simpa using List.length_pos.mpr hkne)]
  rw [Nat.zero_add]
  rw [List.take_left, hktrim]
  have hdrop : (key ++ ':' :: rawv).drop (key.length + 1) = rawv := by
    rw [show key ++ ':' :: rawv = (key ++ [':']) ++ rawv from by simp]
    rw [show key.length + 1 = (key ++ [':']).length from by simp]
    exact List.drop_left ..
  rw [hdrop]

theorem dropWhile_isWs_quote (x : Str) :
    List.dropWhile isWs ('"' :: x) = '"' :: x := by
  rw [List.dropWhile_cons, if_neg (by decide)]

theorem strTrim_space_quoted (v : Str) :
    strTrim (' ' :: (dq ++ v ++ dq)) = dq ++ v ++ dq := by
  unfold strTrim
  rw [show (dq ++ v ++ dq : Str) = '"' :: (v ++ dq) from by
    rw [show (dq : Str) = ['"'] from rfl]
    simp]
  rw [List.dropWhile_cons, if_pos (by decide)]
  rw [dropWhile_isWs_quote]
  rw [show ('"' :: (v ++ dq)).reverse = '"' :: (v.reverse ++ ['"']) from by
    rw [show (dq : Str) = ['"'] from rfl]
    simp]
  rw [dropWhile_isWs_quote]
  rw [show ('"' :: (v.reverse ++ ['"'])).reverse = '"' :: (v ++ dq) from by
    rw [show (dq : Str) = ['"'] from rfl]
    simp]

theorem stripQuotes_quoted (v : Str) : stripQuotes (dq ++ v ++ dq) = v := by
  unfold stripQuotes
  rw [if_pos]
  · rw [show (dq ++ v ++ dq : Str) = '"' :: (v ++ ['"']) from by
      rw [show (dq : Str) = ['"'] from rfl]
      simp]
    rw [List.drop_one, List.tail_cons, List.dropLast_concat]
  · rw [Bool.or_eq_true, Bool.and_eq_true]
    exact Or.inl ⟨isPrefixOf_append_self dq (v ++ dq),
      List.isSuffixOf_iff_suffix.mpr ⟨dq ++ v, List.append_assoc dq v dq⟩⟩

/-- A quoted front-matter line `key: "<v>"`. -/
def qline (key v : Str) : Str := key ++ ':' :: ' ' :: (dq ++ v ++ dq)

/-- A bare front-matter line `key: <v>`. -/
def bline (key v : Str) : Str := key ++ ':' :: ' ' :: v

theorem parseYamlLine_qline (data : List (Str × YamlVal)) (key v : Str)
    (hk : ∀ c ∈ key, c ≠ ':') (hkne : key ≠ []) (hktrim : strTrim key = key) :
    parseYamlLine data (qline key v)
      = data ++ [(key, yamlValueOf key v)] := by
  unfold qline
  rw [parseYamlLine_keyval data key _ hk hkne hktrim]
  rw [strTrim_space_quoted, stripQuotes_quoted]

/-! ## Substring and suffix toolkit for the body parser -/

theorem hasSub_of_isPrefixOf {pat s : Str} (h : List.isPrefixOf pat s = true) :
    hasSub pat s = true := by
  cases s with
  | nil => exact h
  | cons c rest =>
    unfold hasSub
    rw [h, Bool.true_or]

theorem hasSub_append_right (pat : Str) : ∀ (x : Str) {y : Str},
    hasSub pat y = true → hasSub pat (x ++ y) = true
  | [], _, h => h
  | c :: x', y, h => by
    rw [List.cons_append]
    unfold hasSub
    rw [hasSub_append_right pat x' h, Bool.or_true]

theorem hasSub_of_prefix_in_suffix {pat A q : Str} (hsuf : q <:+ A)
    (hp : List.isPrefixOf pat q = true) : hasSub pat A = true := by
  obtain ⟨pre, rfl⟩ := hsuf
  exact hasSub_append_right pat pre (hasSub_of_isPrefixOf hp)

/-- A prefix that fits inside the left part of an append stays there. -/
theorem prefix_long {pat x B : Str} (h : pat <+: x ++ B)
    (hle : pat.length ≤ x.length) : pat <+: x :=
  List.prefix_of_prefix_length_le h (List.prefix_append x B) hle

/-- A prefix that overruns the left part of an append splits at the seam. -/
theorem prefix_split {pat x B : Str} (h : pat <+: x ++ B)
    (hlt : x.length < pat.length) :
    x <+: pat ∧ pat.drop x.length <+: B := by
  have hx : x <+: pat :=
    List.prefix_of_prefix_length_le (List.prefix_append x B) h (Nat.le_of_lt hlt)
  obtain ⟨t, ht⟩ := hx
  have hdrop : pat.drop x.length = t := by
    rw [← ht, List.drop_left]
  refine ⟨⟨t, ht⟩, ?_⟩
  rw [hdrop]
  rw [← ht] at h
  exact (List.prefix_append_right_inj x).mp h

/-- Decidable absence of a pattern at every suffix of a concrete string,
strong enough to survive any continuation. -/
def noHit (pat Z : Str) : Bool :=
  Z.tails.all (fun q => decide (q = [])
    || (if q.length < pat.length then !(List.isPrefixOf q pat)
        else !(List.isPrefixOf pat q)))

theorem noHit_spec {pat Z : Str} (h : noHit pat Z = true) (q : Str)
    (hq : q ≠ []) (hsuf : q <:+ Z) (B : Str) :
    List.isPrefixOf pat (q ++ B) = false := by
  have hmem : q ∈ Z.tails := (List.mem_tails q Z).mpr hsuf
  rw [noHit, List.all_eq_true] at h
  have hb := h q hmem
  rw [Bool.or_eq_true, decide_eq_true_eq] at hb
  rcases hb with hb | hb
  · exact absurd hb hq
  by_cases hpre : List.isPrefixOf pat (q ++ B) = true
  · exfalso
    have hpre' : pat <+: q ++ B := List.isPrefixOf_iff_prefix.mp hpre
    by_cases hlen : q.length < pat.length
    · rw [if_pos hlen, Bool.not_eq_true'] at hb
      have hqp : q <+: pat := (prefix_split hpre' hlen).1
      rw [ List.isPrefixOf_iff_prefix.mpr hqp] at hb
      cases hb
    · rw [if_neg hlen, Bool.not_eq_true'] at hb
      have hpq : pat <+: q := prefix_long hpre' (Nat.le_of_not_lt hlen)
      rw [ List.isPrefixOf_iff_prefix.mpr hpq] at hb
      cases hb
  · exact Bool.not_eq_true _ ▸ (Bool.eq_false_iff.mpr hpre)

/-- A pattern whose later characters are never a newline cannot start
inside a pattern-free segment when the continuation begins with `\n`. -/
theorem seg_safe (pat A : Str) (hA : hasSub pat A = false)
    (hk : ∀ k, k < pat.length → 1 ≤ k → ¬ (pat.drop k).head? = some (Char.ofNat 10))
    (q : Str) (hq : q ≠ []) (hsuf : q <:+ A) (t : Str)
    (ht : t.head? = some (Char.ofNat 10)) :
    List.isPrefixOf pat (q ++ t) = false := by
  by_cases hpre : List.isPrefixOf pat (q ++ t) = true
  · exfalso
    have hpre' : pat <+: q ++ t := List.isPrefixOf_iff_prefix.mp hpre
    by_cases hlen : q.length < pat.length
    · obtain ⟨hqp, hrest⟩ := prefix_split hpre' hlen
      have hq1 : 1 ≤ q.length := by
        cases q with
        | nil => exact absurd rfl hq
        | cons c r => simp
      refine hk q.length hlen hq1 ?_
      obtain ⟨u, hu⟩ := hrest
      have hne : pat.drop q.length ≠ [] := by
        intro hnil
        have := congrArg List.length hnil
        rw [List.length_drop] at this
        simp at this
        omega
      cases hd : pat.drop q.length with
      | nil => exact absurd hd hne
      | cons c r =>
        rw [hd] at hu
        rw [← hu] at ht
        simpa using ht
    · have hpq : pat <+: q := prefix_long hpre' (Nat.le_of_not_lt hlen)
      rw [hasSub_of_prefix_in_suffix hsuf ( List.isPrefixOf_iff_prefix.mpr hpq)] at hA
      cases hA
  · exact Bool.not_eq_true _ ▸ (Bool.eq_false_iff.mpr hpre)

/-- Every suffix of an append is a suffix of the right part, or carries
the whole right part behind a non-empty suffix of the left part. -/
theorem suffix_append_cases (y : Str) : ∀ (x q : Str), q <:+ x ++ y →
    q <:+ y ∨ ∃ q', q = q' ++ y ∧ q' <:+ x ∧ q' ≠ []
  | [], q, h => Or.inl (by simpa using h)
  | c :: x', q, h => by
    rw [List.cons_append, List.suffix_cons_iff] at h
    rcases h with rfl | h'
    · exact Or.inr ⟨c :: x', by rw [List.cons_append], List.suffix_refl _, by simp⟩
    · rcases suffix_append_cases y x' q h' with h'' | ⟨q', rfl, hs, hne⟩
      · exact Or.inl h''
      · exact Or.inr ⟨q', rfl, hs.trans (List.suffix_cons c x'), hne⟩

/-! ## Unfolding equations for `parseMessages` -/

theorem parseMessages_cons_none {c : Char} {r : Str}
    (h : matchHeader (c :: r) = none) :
    parseMessages (c :: r) = parseMessages r := by
  conv_lhs => unfold parseMessages
  split
  · next role ts after hm =>
    rw [h] at hm
    cases hm
  · rfl

theorem parseMessages_cons_some {c : Char} {r role ts after : Str}
    (h : matchHeader (c :: r) = some (role, ts, after)) :
    parseMessages (c :: r)
      = { role := strToLower role, timestamp := ts,
          content := strTrim (takeContent after).1 }
        :: parseMessages (takeContent after).2 := by
  conv_lhs => unfold parseMessages
  split
  · next role' ts' after' hm =>
    rw [h] at hm
    simp only [Option.some.injEq, Prod.mk.injEq] at hm
    obtain ⟨h1, h2, h3⟩ := hm
    rw [h1, h2, h3]
  · next hm =>
    rw [h] at hm
    cases hm

/-- `parseMessages` skips over a prefix no suffix of which starts a
message header, whatever follows. -/
theorem parseMessages_skip (B : Str) : ∀ p : Str,
    (∀ q, q ≠ [] → q <:+ p → List.isPrefixOf "### ".data (q ++ B) = false) →
    parseMessages (p ++ B) = parseMessages B
  | [], _ => by rw [List.nil_append]
  | c :: p', h => by
    have hexp : expectStr "### ".data (c :: (p' ++ B)) = none := by
      unfold expectStr
      rw [show c :: (p' ++ B) = (c :: p') ++ B from rfl]
      rw [h (c :: p') (by simp) (List.suffix_refl _)]
      simp
    have hm : matchHeader (c :: (p' ++ B)) = none := by
      unfold matchHeader
      rw [hexp]
      rfl
    rw [List.cons_append, parseMessages_cons_none hm]
    exact parseMessages_skip B p'
      (fun q hq hs => h q hq (hs.trans (List.suffix_cons c p')))

/-! ## The message regex on rendered blocks -/

theorem isPrefixOf_extend {p s : Str} (h : List.isPrefixOf p s = true)
    (w : Str) : List.isPrefixOf p (s ++ w) = true :=
  List.isPrefixOf_iff_prefix.mpr
    (( List.isPrefixOf_iff_prefix.mp h).trans (List.prefix_append s w))

theorem expectStr_extend {p s r : Str} (h : expectStr p s = some r)
    (w : Str) : expectStr p (s ++ w) = some (r ++ w) := by
  unfold expectStr at h ⊢
  split at h
  · next hpre =>
    cases h
    have hle : p.length ≤ s.length :=
      ( List.isPrefixOf_iff_prefix.mp hpre).length_le
    rw [if_pos (isPrefixOf_extend hpre w), List.drop_append_of_le_length hle]
  · cases h

theorem takeDigits_extend {n : Nat} {s d r : Str}
    (h : takeDigits n s = some (d, r)) (w : Str) :
    takeDigits n (s ++ w) = some (d, r ++ w) := by
  unfold takeDigits at h ⊢
  split at h
  · next hc =>
    cases h
    have hle : n ≤ s.length := by
      have := hc.1
      rw [List.length_take] at this
      omega
    rw [List.take_append_of_le_length hle]
    rw [if_pos hc, List.drop_append_of_le_length hle]
  · cases h

theorem roleAlt_role (role t : Str)
    (h : role = "User".data ∨ role = "Assistant".data ∨ role = "System".data) :
    roleAlt (role ++ t) = some (role, t) := by
  rcases h with rfl | rfl | rfl
  · unfold roleAlt
    rw [if_pos (isPrefixOf_append_self ..)]
    rw [show (4 : Nat) = ("User".data : Str).length from rfl, List.drop_left]
  · unfold roleAlt
    rw [show List.isPrefixOf "User".data ("Assistant".data ++ t) = false from rfl]
    rw [if_neg (by simp), if_pos (isPrefixOf_append_self ..)]
    rw [show (9 : Nat) = ("Assistant".data : Str).length from rfl, List.drop_left]
  · unfold roleAlt
    rw [show List.isPrefixOf "User".data ("System".data ++ t) = false from rfl]
    rw [show List.isPrefixOf "Assistant".data ("System".data ++ t) = false from rfl]
    rw [if_neg (by simp), if_neg (by simp), if_pos (isPrefixOf_append_self ..)]
    rw [show (6 : Nat) = ("System".data : Str).length from rfl, List.drop_left]

/-- A timestamp that the timestamp pattern matches in full is still
matched, and nothing more, when a newline follows it. -/
theorem matchTimestamp_extend {ts : Str}
    (h : matchTimestamp ts = some (ts, [])) (u : Str) :
    matchTimestamp (ts ++ Char.ofNat 10 :: u)
      = some (ts, Char.ofNat 10 :: u) := by
  unfold matchTimestamp at h ⊢
  simp only [Option.bind_eq_bind, Option.bind_eq_some] at h
  obtain ⟨⟨y, s1⟩, h1, ⟨s2, h2, ⟨⟨mo, s3⟩, h3, ⟨s4, h4, ⟨⟨d, s5⟩, h5,
    ⟨s6, h6, h7⟩⟩⟩⟩⟩⟩ := h
  rw [takeDigits_extend h1 (Char.ofNat 10 :: u)]
  simp only [Option.bind_eq_bind, Option.some_bind]
  rw [expectStr_extend h2 (Char.ofNat 10 :: u)]
  simp only [Option.bind_eq_bind, Option.some_bind]
  rw [takeDigits_extend h3 (Char.ofNat 10 :: u)]
  simp only [Option.bind_eq_bind, Option.some_bind]
  rw [expectStr_extend h4 (Char.ofNat 10 :: u)]
  simp only [Option.bind_eq_bind, Option.some_bind]
  rw [takeDigits_extend h5 (Char.ofNat 10 :: u)]
  simp only [Option.bind_eq_bind, Option.some_bind]
  rw [expectStr_extend h6 (Char.ofNat 10 :: u)]
  simp only [Option.bind_eq_bind, Option.some_bind]
  have hall : ∀ c ∈ s6.takeWhile isTsChar, isTsChar c = true :=
    fun c hc => List.mem_takeWhile_imp hc
  have hpre : s6.takeWhile isTsChar <+: s6 := List.takeWhile_prefix _
  have hsplit : s6 = s6.takeWhile isTsChar
      ++ s6.drop (s6.takeWhile isTsChar).length := by
    conv_lhs => rw [← List.take_append_drop (s6.takeWhile isTsChar).length s6]
    rw [← (List.prefix_iff_eq_take.mp hpre)]
  split at h7
  · cases h7
  · rename_i hbody
    split at h7
    · rename_i hz
      simp only [Option.some.injEq, Prod.mk.injEq] at h7
      obtain ⟨hts, hrest⟩ := h7
      obtain ⟨w0, hw0⟩ := List.isPrefixOf_iff_prefix.mp hz
      have hw0' : s6.drop (s6.takeWhile isTsChar).length = 'Z' :: w0 := by
        rw [← hw0]
        rfl
      rw [hw0'] at hrest
      simp only [List.drop_one, List.tail_cons] at hrest
      subst hrest
      rw [hw0'] at hsplit
      generalize hb : s6.takeWhile isTsChar = b at hbody hall hts hsplit
      rw [hsplit, List.append_assoc]
      rw [List.takeWhile_append, List.takeWhile_eq_self_iff.mpr hall, if_pos rfl]
      rw [show List.takeWhile isTsChar (['Z'] ++ Char.ofNat 10 :: u) = [] from rfl]
      rw [List.append_nil]
      rw [if_neg hbody]
      rw [List.drop_left]
      rw [show List.isPrefixOf ['Z'] (['Z'] ++ Char.ofNat 10 :: u) = true from rfl]
      rw [if_pos rfl]
      rw [hts]
      rfl
    · rename_i hz
      simp only [Option.some.injEq, Prod.mk.injEq] at h7
      obtain ⟨hts, hrest⟩ := h7
      rw [hrest, List.append_nil] at hsplit
      generalize hb : s6.takeWhile isTsChar = b at hbody hall hts hsplit
      rw [hsplit]
      rw [List.takeWhile_append, List.takeWhile_eq_self_iff.mpr hall, if_pos rfl]
      rw [show List.takeWhile isTsChar (Char.ofNat 10 :: u) = [] from rfl]
      rw [List.append_nil]
      rw [if_neg hbody]
      rw [List.drop_left]
      rw [show List.isPrefixOf ['Z'] (Char.ofNat 10 :: u) = false from rfl]
      rw [if_neg (by simp)]
      rw [hts]

/-! ## Content capture and trim recovery -/

theorem takeContent_append (T : Str) : ∀ (content : Str),
    (∀ s, s ≠ [] → s <:+ content → isTerminator (s ++ T) = false) →
    takeContent (content ++ T)
      = (content ++ (takeContent T).1, (takeContent T).2)
  | [], _ => by rw [List.nil_append, List.nil_append]
  | c :: rest, h => by
    rw [List.cons_append]
    have hterm : isTerminator (c :: (rest ++ T)) = false :=
      h (c :: rest) (by simp) (List.suffix_refl _)
    conv_lhs => unfold takeContent
    rw [hterm]
    rw [if_neg (by simp)]
    rw [takeContent_append T rest
      (fun s hs hsuf => h s hs (hsuf.trans (List.suffix_cons c rest)))]
    rfl

/-- Whether the first character, if any, is non-whitespace. -/
def notWsHead : Str → Bool
  | [] => true
  | c :: _ => !isWs c

/-- The string neither starts nor ends with whitespace. -/
def trimmed (s : Str) : Bool := notWsHead s && notWsHead s.reverse

theorem dropWhile_isWs_eq_self {s : Str} (h : notWsHead s = true) :
    List.dropWhile isWs s = s := by
  cases s with
  | nil => rfl
  | cons c r =>
    have hc : isWs c = false := by simpa [notWsHead] using h
    rw [List.dropWhile_cons, hc]
    simp

theorem strTrim_eq_self {s : Str} (h : trimmed s = true) : strTrim s = s := by
  rw [trimmed, Bool.and_eq_true] at h
  obtain ⟨h1, h2⟩ := h
  unfold strTrim
  rw [dropWhile_isWs_eq_self h1, dropWhile_isWs_eq_self h2, List.reverse_reverse]

theorem strTrim_content_nl {content : Str} (h : trimmed content = true) :
    strTrim (content ++ [Char.ofNat 10]) = content := by
  rw [trimmed, Bool.and_eq_true] at h
  obtain ⟨h1, h2⟩ := h
  unfold strTrim
  cases content with
  | nil => rfl
  | cons c r =>
    have hc : isWs c = false := by simpa [notWsHead] using h1
    rw [List.cons_append, List.dropWhile_cons, hc]
    simp only [Bool.false_eq_true, if_false]
    rw [show (c :: (r ++ [Char.ofNat 10])).reverse
        = Char.ofNat 10 :: (r.reverse ++ [c]) from by simp]
    rw [List.dropWhile_cons, show isWs (Char.ofNat 10) = true from rfl]
    simp only [if_true]
    have h2' : List.dropWhile isWs (r.reverse ++ [c]) = r.reverse ++ [c] := by
      apply dropWhile_isWs_eq_self
      have hrev : (c :: r).reverse = r.reverse ++ [c] := by simp
      rwa [hrev] at h2
    rw [h2']
    rw [show (r.reverse ++ [c]).reverse = c :: r from by simp]

theorem strTrim_content_nlnl {content : Str} (h : trimmed content = true) :
    strTrim (content ++ "\n\n".data) = content := by
  rw [trimmed, Bool.and_eq_true] at h
  obtain ⟨h1, h2⟩ := h
  unfold strTrim
  cases content with
  | nil => rfl
  | cons c r =>
    have hc : isWs c = false := by simpa [notWsHead] using h1
    rw [List.cons_append, List.dropWhile_cons, hc]
    simp only [Bool.false_eq_true, if_false]
    rw [show (c :: (r ++ "\n\n".data)).reverse
        = Char.ofNat 10 :: Char.ofNat 10 :: (r.reverse ++ [c]) from by
      rw [show ("\n\n".data : Str) = [Char.ofNat 10, Char.ofNat 10] from rfl]
      simp]
    rw [List.dropWhile_cons, show isWs (Char.ofNat 10) = true from rfl]
    simp only [if_true]
    rw [List.dropWhile_cons, show isWs (Char.ofNat 10) = true from rfl]
    simp only [if_true]
    have h2' : List.dropWhile isWs (r.reverse ++ [c]) = r.reverse ++ [c] := by
      apply dropWhile_isWs_eq_self
      have hrev : (c :: r).reverse = r.reverse ++ [c] := by simp
      rwa [hrev] at h2
    rw [h2']
    rw [show (r.reverse ++ [c]).reverse = c :: r from by simp]

/-! ## Rendered message blocks round-trip through the message regex -/

/-- One conversation block as laid out by `sessionToMarkdown`
(session-manager.js:607-611). -/
def renderMsg (now : Str) (msg : Message) : Str :=
  "### ".data ++ capitalizeRole msg.role ++ " | ".data ++
  (if msg.timestamp = [] then now else msg.timestamp) ++
  "\n\n".data ++ msg.content ++ "\n\n".data

/-- A message whose rendered block parses back to itself: a known role,
a timestamp the timestamp pattern matches in full, and content that is
trimmed and free of the three lookahead terminators. -/
def msgSafe (m : Message) : Prop :=
  (m.role = "user".data ∨ m.role = "assistant".data ∨ m.role = "system".data)
  ∧ matchTimestamp m.timestamp = some (m.timestamp, [])
  ∧ trimmed m.content = true
  ∧ hasSub "\n### ".data m.content = false
  ∧ hasSub "\n---".data m.content = false
  ∧ hasSub "\n## ".data m.content = false

instance (m : Message) : Decidable (msgSafe m) := by
  unfold msgSafe
  infer_instance

theorem content_hsafe (content : Str)
    (h1 : hasSub "\n### ".data content = false)
    (h2 : hasSub "\n---".data content = false)
    (h3 : hasSub "\n## ".data content = false)
    (T : Str) (hT : T.head? = some (Char.ofNat 10)) :
    ∀ s, s ≠ [] → s <:+ content → isTerminator (s ++ T) = false := by
  intro s hs hsuf
  unfold isTerminator
  rw [seg_safe "\n### ".data content h1 (by decide) s hs hsuf T hT]
  rw [seg_safe "\n---".data content h2 (by decide) s hs hsuf T hT]
  rw [seg_safe "\n## ".data content h3 (by decide) s hs hsuf T hT]
  rfl

theorem matchHeader_block (role ts u : Str)
    (hrole : role = "User".data ∨ role = "Assistant".data ∨ role = "System".data)
    (hts : matchTimestamp ts = some (ts, [])) :
    matchHeader ("### ".data ++ (role ++ (" | ".data ++ (ts ++ ("\n\n".data ++ u)))))
      = some (role, ts, u) := by
  rw [show ("\n\n".data : Str) ++ u = Char.ofNat 10 :: Char.ofNat 10 :: u from rfl]
  unfold matchHeader
  rw [expectStr_append_self]
  simp only [Option.bind_eq_bind, Option.some_bind]
  rw [roleAlt_role role _ hrole]
  simp only [Option.some_bind]
  rw [expectStr_append_self]
  simp only [Option.some_bind]
  rw [matchTimestamp_extend hts (Char.ofNat 10 :: u)]
  simp only [Option.some_bind]
  rw [show expectStr "\n\n".data (Char.ofNat 10 :: Char.ofNat 10 :: u) = some u
    from expectStr_append_self "\n\n".data u]
  rfl

theorem takeContent_nl_hdr (Y : Str) :
    takeContent ("\n\n".data ++ ("### ".data ++ Y))
      = ([Char.ofNat 10], Char.ofNat 10 :: ("### ".data ++ Y)) := by
  have hterm2 : isTerminator (Char.ofNat 10 :: ("### ".data ++ Y)) = true := by
    unfold isTerminator
    rw [show List.isPrefixOf "\n### ".data (Char.ofNat 10 :: ("### ".data ++ Y))
        = List.isPrefixOf "### ".data ("### ".data ++ Y) from rfl]
    rw [isPrefixOf_append_self]
    rw [Bool.true_or, Bool.true_or]
  rw [show ("\n\n".data : Str) ++ ("### ".data ++ Y)
      = Char.ofNat 10 :: (Char.ofNat 10 :: ("### ".data ++ Y)) from rfl]
  conv_lhs => unfold takeContent
  rw [show isTerminator (Char.ofNat 10 :: Char.ofNat 10 :: ("### ".data ++ Y))
      = false from rfl]
  rw [if_neg (by simp)]
  rw [show takeContent (Char.ofNat 10 :: ("### ".data ++ Y))
      = ([], Char.ofNat 10 :: ("### ".data ++ Y)) from by
    conv_lhs => unfold takeContent
    rw [hterm2, if_pos rfl]]

theorem parseMessages_header_block (role ts rest : Str)
    (hrole : role = "User".data ∨ role = "Assistant".data ∨ role = "System".data)
    (hts : matchTimestamp ts = some (ts, [])) :
    parseMessages ("### ".data ++ (role ++ (" | ".data ++ (ts ++ ("\n\n".data ++ rest)))))
      = { role := strToLower role, timestamp := ts,
          content := strTrim (takeContent rest).1 }
        :: parseMessages (takeContent rest).2 := by
  have hm : matchHeader
      ('#' :: ('#' :: '#' :: ' ' :: (role ++ (" | ".data ++ (ts ++ ("\n\n".data ++ rest))))))
      = some (role, ts, rest) := matchHeader_block role ts rest hrole hts
  exact parseMessages_cons_some hm

/-- One rendered block followed by nothing or by another block parses to
its message followed by the parse of the remainder. -/
theorem parseMessages_one_block (now : Str) (m : Message) (B : Str)
    (hm : msgSafe m)
    (hB : B = [] ∨ ∃ Y, B = "### ".data ++ Y) :
    parseMessages (renderMsg now m ++ B)
      = { role := m.role, timestamp := m.timestamp, content := m.content }
        :: parseMessages B := by
  obtain ⟨hrole, hts, htrim, hc1, hc2, hc3⟩ := hm
  have htsne : m.timestamp ≠ [] := by
    intro hnil
    rw [hnil] at hts
    exact absurd hts (by decide)
  unfold renderMsg
  rw [if_neg htsne]
  simp only [List.append_assoc]
  have hcap : capitalizeRole m.role = "User".data ∨ capitalizeRole m.role = "Assistant".data
      ∨ capitalizeRole m.role = "System".data := by
    rcases hrole with h | h | h
    · exact Or.inl (by rw [h]; decide)
    · exact Or.inr (Or.inl (by rw [h]; decide))
    · exact Or.inr (Or.inr (by rw [h]; decide))
  rw [parseMessages_header_block (capitalizeRole m.role) m.timestamp
    (m.content ++ ("\n\n".data ++ B)) hcap hts]
  have hlow : strToLower (capitalizeRole m.role) = m.role := by
    rcases hrole with h | h | h <;> rw [h] <;> decide
  rw [hlow]
  have hsafeT := content_hsafe m.content hc1 hc2 hc3 ("\n\n".data ++ B) rfl
  rw [takeContent_append ("\n\n".data ++ B) m.content hsafeT]
  rcases hB with rfl | ⟨Y, rfl⟩
  · rw [List.append_nil]
    rw [show takeContent "\n\n".data = ("\n\n".data, []) from rfl]
    dsimp only
    rw [strTrim_content_nlnl htrim]
  · rw [takeContent_nl_hdr Y]
    dsimp only
    rw [strTrim_content_nl htrim]
    rw [parseMessages_cons_none
      (show matchHeader (Char.ofNat 10 :: ("### ".data ++ Y)) = none from rfl)]

/-- The rendered conversation of safe messages parses back to exactly
those messages. -/
theorem parseMessages_blocks (now : Str) : ∀ msgs : List Message,
    (∀ m ∈ msgs, msgSafe m) →
    parseMessages ((msgs.map (renderMsg now)).flatten) = msgs
  | [], _ => by
    rw [show ((List.map (renderMsg now) []).flatten : Str) = [] from rfl]
    unfold parseMessages
    rfl
  | m :: ms, h => by
    rw [List.map_cons, List.flatten_cons]
    have hB : (ms.map (renderMsg now)).flatten = []
        ∨ ∃ Y, (ms.map (renderMsg now)).flatten = "### ".data ++ Y := by
      cases ms with
      | nil => exact Or.inl rfl
      | cons m2 ms2 =>
        refine Or.inr ⟨capitalizeRole m2.role ++ " | ".data
          ++ (if m2.timestamp = [] then now else m2.timestamp)
          ++ "\n\n".data ++ m2.content ++ "\n\n".data
          ++ (ms2.map (renderMsg now)).flatten, ?_⟩
        rw [List.map_cons, List.flatten_cons]
        simp [renderMsg, List.append_assoc]
    rw [parseMessages_one_block now m _ (h m (by simp)) hB]
    rw [parseMessages_blocks now ms (fun x hx => h x (List.mem_cons_of_mem m hx))]

/-! ## The formatted session file, decomposed -/

/-- The agent display name derived in `sessionToMarkdown`
(session-manager.js:566). -/
def agentNameOf (s : Session) : Str :=
  replaceFirst ".md".data [] (replaceFirst "agents/".data [] s.agentPath)

/-- The front-matter lines written by `sessionToMarkdown` for a session
without title and context, in file order (empty lines included). -/
def smLines (s : Session) : List Str :=
  [qline "session_id".data s.id,
   qline "session_key".data s.key,
   qline "agent".data s.agentPath,
   qline "agent_name".data (agentNameOf s),
   [],
   bline "type".data "chat".data,
   qline "created_at".data s.createdAt,
   qline "last_accessed".data s.lastAccessed,
   qline "sdk_session_id".data ((validateSdkSessionId s.sdkSessionId).getD []),
   bline "archived".data (if s.archived then "true".data else "false".data),
   []]

/-- The document body written by `sessionToMarkdown` after the closing
front-matter fence, for a session without title and context. -/
def smTail (now : Str) (s : Session) : Str :=
  "\n# Chat with ".data ++ (agentNameOf s
    ++ ("\n\n## Conversation\n\n".data ++ (s.messages.map (renderMsg now)).flatten))

set_option maxRecDepth 4000 in
theorem sessionToMarkdown_shape (now : Str) (s : Session)
    (htitle : s.title = none) (hctx : s.context = []) :
    sessionToMarkdown now s
      = "---\n".data ++ (joinLines (smLines s)
          ++ ("\n---\n".data ++ smTail now s)) := by
  obtain ⟨id, key, ap, title, ctx, sdk, msgs, fp, ca, la, arch⟩ := s
  dsimp only at htitle hctx
  subst htitle
  subst hctx
  unfold sessionToMarkdown smLines smTail agentNameOf qline bline
  dsimp only
  rw [show getKey ([] : List (Str × Str)) "documentPath".data = none from rfl]
  dsimp only
  simp only [List.length_nil]
  rw [if_neg (show ¬ ((0 : Nat) > 0) from by decide)]
  rw [show (renderMsg now) = (fun msg =>
    "### ".data ++ capitalizeRole msg.role ++ " | ".data ++
    (if msg.timestamp = [] then now else msg.timestamp) ++
    "\n\n".data ++ msg.content ++ "\n\n".data) from rfl]
  simp only [joinLines]
  simp only [List.append_assoc, List.cons_append, List.nil_append, List.append_nil]

/-- A front-matter key as written by the template: non-empty,
colon-free, and already trimmed. -/
def keyOk (key : Str) : Bool :=
  (!key.isEmpty) && key.all (fun c => c ≠ ':') && (strTrim key == key)

theorem parseYamlLine_qline2 (data : List (Str × YamlVal)) (key v : Str)
    (hk : keyOk key = true) :
    parseYamlLine data (qline key v) = data ++ [(key, yamlValueOf key v)] := by
  rw [keyOk, Bool.and_eq_true, Bool.and_eq_true] at hk
  obtain ⟨⟨h1, h2⟩, h3⟩ := hk
  apply parseYamlLine_qline data key v
  · intro ch hch
    have hx := (List.all_eq_true.mp h2) ch hch
    simpa using hx
  · intro hnil
    rw [hnil] at h1
    exact absurd h1 (by decide)
  · exact eq_of_beq h3

theorem parseYamlLine_nil (data : List (Str × YamlVal)) :
    parseYamlLine data [] = data := rfl

theorem parseYamlLine_bline2 (data : List (Str × YamlVal)) (key v : Str)
    (hk : keyOk key = true) (hv : stripQuotes (strTrim (' ' :: v)) = v) :
    parseYamlLine data (bline key v) = data ++ [(key, yamlValueOf key v)] := by
  rw [keyOk, Bool.and_eq_true, Bool.and_eq_true] at hk
  obtain ⟨⟨h1, h2⟩, h3⟩ := hk
  rw [show bline key v = key ++ ':' :: (' ' :: v) from rfl]
  rw [parseYamlLine_keyval data key (' ' :: v)
    (fun ch hch => by simpa using (List.all_eq_true.mp h2) ch hch)
    (fun hnil => absurd (hnil ▸ h1) (by decide))
    (eq_of_beq h3)]
  rw [hv]

theorem yamlValueOf_str (key v : Str) (hkey : key ≠ "sdk_session_id".data)
    (h1 : v ≠ []) (h2 : v ≠ "\x7b\x7d".data) :
    yamlValueOf key v = .str v := by
  unfold yamlValueOf
  rw [if_neg (fun hcond => hcond.2.elim h1 h2),
      if_neg (fun hcond => hkey hcond.1)]

theorem yamlValueOf_sdk_some {v : Str} (hv : v ≠ []) :
    yamlValueOf "sdk_session_id".data v = .str v := by
  unfold yamlValueOf
  rw [if_neg (fun hcond => hcond.1 rfl), if_neg (fun hcond => hv hcond.2)]

theorem validateSdkSessionId_some_props {x : JsVal} {v : Str}
    (h : validateSdkSessionId x = some v) :
    v ≠ [] ∧ v ≠ "[object Object]".data
      ∧ List.isPrefixOf "[object".data v = false := by
  have hx : x = .str v := validateSdkSessionId_eq_some h
  subst hx
  rw [validateSdkSessionId_str] at h
  split_ifs at h with hcond
  obtain ⟨h1, h2, h3⟩ := hcond
  exact ⟨h1, h2, (Bool.not_eq_true _) ▸ h3⟩

theorem noNl_qline {k v : Str} (hk : noNl k = true) (hv : noNl v = true) :
    noNl (qline k v) = true := by
  unfold qline noNl at *
  simp only [List.all_append, List.all_cons, Bool.and_eq_true]
  refine ⟨hk, by decide, by decide, ⟨⟨by decide, hv⟩, by decide⟩⟩

theorem noNl_bline {k v : Str} (hk : noNl k = true) (hv : noNl v = true) :
    noNl (bline k v) = true := by
  unfold bline noNl at *
  simp only [List.all_append, List.all_cons, Bool.and_eq_true]
  exact ⟨hk, by decide, by decide, hv⟩

theorem head_qline (a : Char) (r v : Str) :
    (qline (a :: r) v).head? = some a := rfl

/-- A session whose formatted file parses back to an equal record:
no title or context, non-degenerate identifier fields without
newlines, a newline-free agent name not containing a header marker,
and safe messages. -/
def wellFormedSession (s : Session) : Prop :=
  s.title = none ∧ s.context = []
  ∧ s.id ≠ [] ∧ s.id ≠ "\x7b\x7d".data ∧ noNl s.id = true
  ∧ s.key ≠ [] ∧ s.key ≠ "\x7b\x7d".data ∧ noNl s.key = true
  ∧ s.agentPath ≠ [] ∧ s.agentPath ≠ "\x7b\x7d".data ∧ noNl s.agentPath = true
  ∧ noNl s.createdAt = true ∧ noNl s.lastAccessed = true
  ∧ noNl (agentNameOf s) = true
  ∧ noNl ((validateSdkSessionId s.sdkSessionId).getD []) = true
  ∧ hasSub "### ".data (agentNameOf s) = false
  ∧ (∀ m ∈ s.messages, msgSafe m)

instance (s : Session) : Decidable (wellFormedSession s) := by
  unfold wellFormedSession
  infer_instance

/-- The parsed front-matter data of a formatted session without title
and context, in file order. -/
def smData (s : Session) : List (Str × YamlVal) :=
  [("session_id".data, yamlValueOf "session_id".data s.id),
       ("session_key".data, yamlValueOf "session_key".data s.key),
       ("agent".data, yamlValueOf "agent".data s.agentPath),
       ("agent_name".data, yamlValueOf "agent_name".data (agentNameOf s)),
       ("type".data, YamlVal.str "chat".data),
       ("created_at".data, yamlValueOf "created_at".data s.createdAt),
       ("last_accessed".data, yamlValueOf "last_accessed".data s.lastAccessed),
       ("sdk_session_id".data, yamlValueOf "sdk_session_id".data ((validateSdkSessionId s.sdkSessionId).getD [])),
       ("archived".data, YamlVal.str (if s.archived then "true".data else "false".data))]

theorem head_ne (l : Str) (c c2 : Char) (h : l.head? = some c) (hcc : c ≠ c2) :
    l.head? ≠ some c2 := by
  rw [h]
  intro hx
  exact hcc (by simpa using hx)

theorem parseFrontmatter_format (now : Str) (s : Session)
    (h : wellFormedSession s) :
    parseFrontmatter (sessionToMarkdown now s) = ⟨smData s, smTail now s⟩ := by
  obtain ⟨ht, hc, hid1, hid2, hid3, hk1, hk2, hk3, ha1, ha2, ha3, hca, hla,
    han, hsdkn, hagn, hmsg⟩ := h
  have hnoNl : ∀ l ∈ smLines s, noNl l = true := by
    intro l hl
    simp only [smLines, List.mem_cons, List.not_mem_nil, or_false] at hl
    rcases hl with rfl | rfl | rfl | rfl | rfl | rfl | rfl | rfl | rfl | rfl | rfl
    · exact noNl_qline (by decide) hid3
    · exact noNl_qline (by decide) hk3
    · exact noNl_qline (by decide) ha3
    · exact noNl_qline (by decide) han
    · rfl
    · decide
    · exact noNl_qline (by decide) hca
    · exact noNl_qline (by decide) hla
    · exact noNl_qline (by decide) hsdkn
    · cases s.archived <;> decide
    · rfl
  have hne : smLines s ≠ [] := by simp [smLines]
  have hheads : ∀ l ∈ smLines s, l.head? ≠ some '-' := by
    intro l hl
    simp only [smLines, List.mem_cons, List.not_mem_nil, or_false] at hl
    rcases hl with rfl | rfl | rfl | rfl | rfl | rfl | rfl | rfl | rfl | rfl | rfl
    · exact head_ne _ 's' '-' rfl (by decide)
    · exact head_ne _ 's' '-' rfl (by decide)
    · exact head_ne _ 'a' '-' rfl (by decide)
    · exact head_ne _ 'a' '-' rfl (by decide)
    · decide
    · exact head_ne _ 't' '-' rfl (by decide)
    · exact head_ne _ 'c' '-' rfl (by decide)
    · exact head_ne _ 'l' '-' rfl (by decide)
    · exact head_ne _ 's' '-' rfl (by decide)
    · exact head_ne _ 'a' '-' rfl (by decide)
    · decide
  have e1 : parseYamlLine ([] : List (Str × YamlVal))
      (qline "session_id".data s.id)
      = [("session_id".data, yamlValueOf "session_id".data s.id)] := by
    rw [parseYamlLine_qline2 _ _ _ (by decide)]
    rfl
  have e2 : parseYamlLine [("session_id".data, yamlValueOf "session_id".data s.id)]
      (qline "session_key".data s.key)
      = [("session_id".data, yamlValueOf "session_id".data s.id),
       ("session_key".data, yamlValueOf "session_key".data s.key)] := by
    rw [parseYamlLine_qline2 _ _ _ (by decide)]
    rfl
  have e3 : parseYamlLine [("session_id".data, yamlValueOf "session_id".data s.id),
       ("session_key".data, yamlValueOf "session_key".data s.key)]
      (qline "agent".data s.agentPath)
      = [("session_id".data, yamlValueOf "session_id".data s.id),
       ("session_key".data, yamlValueOf "session_key".data s.key),
       ("agent".data, yamlValueOf "agent".data s.agentPath)] := by
    rw [parseYamlLine_qline2 _ _ _ (by decide)]
    rfl
  have e4 : parseYamlLine [("session_id".data, yamlValueOf "session_id".data s.id),
       ("session_key".data, yamlValueOf "session_key".data s.key),
       ("agent".data, yamlValueOf "agent".data s.agentPath)]
      (qline "agent_name".data (agentNameOf s))
      = [("session_id".data, yamlValueOf "session_id".data s.id),
       ("session_key".data, yamlValueOf "session_key".data s.key),
       ("agent".data, yamlValueOf "agent".data s.agentPath),
       ("agent_name".data, yamlValueOf "agent_name".data (agentNameOf s))] := by
    rw [parseYamlLine_qline2 _ _ _ (by decide)]
    rfl
  have e5 : parseYamlLine [("session_id".data, yamlValueOf "session_id".data s.id),
       ("session_key".data, yamlValueOf "session_key".data s.key),
       ("agent".data, yamlValueOf "agent".data s.agentPath),
       ("agent_name".data, yamlValueOf "agent_name".data (agentNameOf s))] [] = [("session_id".data, yamlValueOf "session_id".data s.id),
       ("session_key".data, yamlValueOf "session_key".data s.key),
       ("agent".data, yamlValueOf "agent".data s.agentPath),
       ("agent_name".data, yamlValueOf "agent_name".data (agentNameOf s))] :=
    parseYamlLine_nil _
  have e6 : parseYamlLine [("session_id".data, yamlValueOf "session_id".data s.id),
       ("session_key".data, yamlValueOf "session_key".data s.key),
       ("agent".data, yamlValueOf "agent".data s.agentPath),
       ("agent_name".data, yamlValueOf "agent_name".data (agentNameOf s))]
      (bline "type".data "chat".data)
      = [("session_id".data, yamlValueOf "session_id".data s.id),
       ("session_key".data, yamlValueOf "session_key".data s.key),
       ("agent".data, yamlValueOf "agent".data s.agentPath),
       ("agent_name".data, yamlValueOf "agent_name".data (agentNameOf s)),
       ("type".data, YamlVal.str "chat".data)] := by
    rw [parseYamlLine_bline2 _ _ _ (by decide) (by decide)]
    rfl
  have e7 : parseYamlLine [("session_id".data, yamlValueOf "session_id".data s.id),
       ("session_key".data, yamlValueOf "session_key".data s.key),
       ("agent".data, yamlValueOf "agent".data s.agentPath),
       ("agent_name".data, yamlValueOf "agent_name".data (agentNameOf s)),
       ("type".data, YamlVal.str "chat".data)]
      (qline "created_at".data s.createdAt)
      = [("session_id".data, yamlValueOf "session_id".data s.id),
       ("session_key".data, yamlValueOf "session_key".data s.key),
       ("agent".data, yamlValueOf "agent".data s.agentPath),
       ("agent_name".data, yamlValueOf "agent_name".data (agentNameOf s)),
       ("type".data, YamlVal.str "chat".data),
       ("created_at".data, yamlValueOf "created_at".data s.createdAt)] := by
    rw [parseYamlLine_qline2 _ _ _ (by decide)]
    rfl
  have e8 : parseYamlLine [("session_id".data, yamlValueOf "session_id".data s.id),
       ("session_key".data, yamlValueOf "session_key".data s.key),
       ("agent".data, yamlValueOf "agent".data s.agentPath),
       ("agent_name".data, yamlValueOf "agent_name".data (agentNameOf s)),
       ("type".data, YamlVal.str "chat".data),
       ("created_at".data, yamlValueOf "created_at".data s.createdAt)]
      (qline "last_accessed".data s.lastAccessed)
      = [("session_id".data, yamlValueOf "session_id".data s.id),
       ("session_key".data, yamlValueOf "session_key".data s.key),
       ("agent".data, yamlValueOf "agent".data s.agentPath),
       ("agent_name".data, yamlValueOf "agent_name".data (agentNameOf s)),
       ("type".data, YamlVal.str "chat".data),
       ("created_at".data, yamlValueOf "created_at".data s.createdAt),
       ("last_accessed".data, yamlValueOf "last_accessed".data s.lastAccessed)] := by
    rw [parseYamlLine_qline2 _ _ _ (by decide)]
    rfl
  have e9 : parseYamlLine [("session_id".data, yamlValueOf "session_id".data s.id),
       ("session_key".data, yamlValueOf "session_key".data s.key),
       ("agent".data, yamlValueOf "agent".data s.agentPath),
       ("agent_name".data, yamlValueOf "agent_name".data (agentNameOf s)),
       ("type".data, YamlVal.str "chat".data),
       ("created_at".data, yamlValueOf "created_at".data s.createdAt),
       ("last_accessed".data, yamlValueOf "last_accessed".data s.lastAccessed)]
      (qline "sdk_session_id".data ((validateSdkSessionId s.sdkSessionId).getD []))
      = [("session_id".data, yamlValueOf "session_id".data s.id),
       ("session_key".data, yamlValueOf "session_key".data s.key),
       ("agent".data, yamlValueOf "agent".data s.agentPath),
       ("agent_name".data, yamlValueOf "agent_name".data (agentNameOf s)),
       ("type".data, YamlVal.str "chat".data),
       ("created_at".data, yamlValueOf "created_at".data s.createdAt),
       ("last_accessed".data, yamlValueOf "last_accessed".data s.lastAccessed),
       ("sdk_session_id".data, yamlValueOf "sdk_session_id".data ((validateSdkSessionId s.sdkSessionId).getD []))] := by
    rw [parseYamlLine_qline2 _ _ _ (by decide)]
    rfl
  have e10 : parseYamlLine [("session_id".data, yamlValueOf "session_id".data s.id),
       ("session_key".data, yamlValueOf "session_key".data s.key),
       ("agent".data, yamlValueOf "agent".data s.agentPath),
       ("agent_name".data, yamlValueOf "agent_name".data (agentNameOf s)),
       ("type".data, YamlVal.str "chat".data),
       ("created_at".data, yamlValueOf "created_at".data s.createdAt),
       ("last_accessed".data, yamlValueOf "last_accessed".data s.lastAccessed),
       ("sdk_session_id".data, yamlValueOf "sdk_session_id".data ((validateSdkSessionId s.sdkSessionId).getD []))]
      (bline "archived".data (if s.archived then "true".data else "false".data))
      = [("session_id".data, yamlValueOf "session_id".data s.id),
       ("session_key".data, yamlValueOf "session_key".data s.key),
       ("agent".data, yamlValueOf "agent".data s.agentPath),
       ("agent_name".data, yamlValueOf "agent_name".data (agentNameOf s)),
       ("type".data, YamlVal.str "chat".data),
       ("created_at".data, yamlValueOf "created_at".data s.createdAt),
       ("last_accessed".data, yamlValueOf "last_accessed".data s.lastAccessed),
       ("sdk_session_id".data, yamlValueOf "sdk_session_id".data ((validateSdkSessionId s.sdkSessionId).getD [])),
       ("archived".data, YamlVal.str (if s.archived then "true".data else "false".data))] := by
    rw [parseYamlLine_bline2 _ _ _ (by decide) (by cases s.archived <;> decide)]
    cases s.archived <;> rfl
  have e11 : parseYamlLine [("session_id".data, yamlValueOf "session_id".data s.id),
       ("session_key".data, yamlValueOf "session_key".data s.key),
       ("agent".data, yamlValueOf "agent".data s.agentPath),
       ("agent_name".data, yamlValueOf "agent_name".data (agentNameOf s)),
       ("type".data, YamlVal.str "chat".data),
       ("created_at".data, yamlValueOf "created_at".data s.createdAt),
       ("last_accessed".data, yamlValueOf "last_accessed".data s.lastAccessed),
       ("sdk_session_id".data, yamlValueOf "sdk_session_id".data ((validateSdkSessionId s.sdkSessionId).getD [])),
       ("archived".data, YamlVal.str (if s.archived then "true".data else "false".data))] [] = [("session_id".data, yamlValueOf "session_id".data s.id),
       ("session_key".data, yamlValueOf "session_key".data s.key),
       ("agent".data, yamlValueOf "agent".data s.agentPath),
       ("agent_name".data, yamlValueOf "agent_name".data (agentNameOf s)),
       ("type".data, YamlVal.str "chat".data),
       ("created_at".data, yamlValueOf "created_at".data s.createdAt),
       ("last_accessed".data, yamlValueOf "last_accessed".data s.lastAccessed),
       ("sdk_session_id".data, yamlValueOf "sdk_session_id".data ((validateSdkSessionId s.sdkSessionId).getD [])),
       ("archived".data, YamlVal.str (if s.archived then "true".data else "false".data))] :=
    parseYamlLine_nil _
  rw [sessionToMarkdown_shape now s ht hc]
  unfold parseFrontmatter
  rw [splitFrontmatter_lines (smLines s) (smTail now s) hne hnoNl hheads]
  dsimp only
  rw [splitOnNl_joinLines (smLines s) hne hnoNl]
  unfold smLines
  simp only [List.foldl_cons, List.foldl_nil]
  rw [e1, e2, e3, e4, e5, e6, e7, e8, e9, e10, e11]
  rfl

/-- The document body of a formatted session parses back to exactly its
messages: the heading and conversation banner are skipped, then the
blocks round-trip. -/
theorem parseMessages_smTail (now : Str) (s : Session)
    (hagn : hasSub "### ".data (agentNameOf s) = false)
    (hmsg : ∀ m ∈ s.messages, msgSafe m) :
    parseMessages (smTail now s) = s.messages := by
  unfold smTail
  rw [show ("\n# Chat with ".data : Str) ++ (agentNameOf s
      ++ ("\n\n## Conversation\n\n".data ++ (s.messages.map (renderMsg now)).flatten))
      = ("\n# Chat with ".data ++ (agentNameOf s ++ "\n\n## Conversation\n\n".data))
        ++ (s.messages.map (renderMsg now)).flatten from by
    simp [List.append_assoc]]
  have hskip : ∀ q, q ≠ []
      → q <:+ ("\n# Chat with ".data ++ (agentNameOf s ++ "\n\n## Conversation\n\n".data))
      → List.isPrefixOf "### ".data (q ++ (s.messages.map (renderMsg now)).flatten)
          = false := by
    intro q hq hsuf
    rcases suffix_append_cases _ "\n# Chat with ".data q hsuf
      with hy | ⟨q2, rfl, hqx, hqne⟩
    · rcases suffix_append_cases "\n\n## Conversation\n\n".data (agentNameOf s) q hy
        with hz | ⟨q3, rfl, hqa, hq3ne⟩
      · exact noHit_spec (by decide) q hq hz _
      · rw [List.append_assoc]
        exact seg_safe "### ".data (agentNameOf s) hagn (by decide) q3 hq3ne hqa _ rfl
    · rw [List.append_assoc]
      exact noHit_spec (by decide) q2 hqne hqx _
  rw [parseMessages_skip ((s.messages.map (renderMsg now)).flatten) _ hskip]
  exact parseMessages_blocks now s.messages hmsg

/-- Full round-trip: parsing the formatted file of a well-formed session
recovers the record, field by field. -/
theorem parse_format_master (now : Str) (s : Session) (h : wellFormedSession s) :
    parseSessionMarkdown (sessionToMarkdown now s) s.filePath
      = some {
          id := .str s.id
          key := .str s.key
          agentPath := .str s.agentPath
          title := .nullV
          context := .obj
          sdkSessionId := validateSdkSessionId s.sdkSessionId
          messages := s.messages
          filePath := s.filePath
          createdAt := yamlToJs (some (yamlValueOf "created_at".data s.createdAt))
          lastAccessed := yamlToJs (some (yamlValueOf "last_accessed".data s.lastAccessed))
          archived := s.archived } := by
  have hall := h
  obtain ⟨ht, hc, hid1, hid2, hid3, hk1, hk2, hk3, ha1, ha2, ha3, hca, hla,
    han, hsdkn, hagn, hmsg⟩ := h
  have hie : s.id.isEmpty = false := by
    cases hval : s.id with
    | nil => exact absurd hval hid1
    | cons a r => rfl
  unfold parseSessionMarkdown
  rw [parseFrontmatter_format now s hall]
  dsimp only
  rw [show getData (smData s) "session_id".data
      = some (yamlValueOf "session_id".data s.id) from rfl]
  rw [yamlValueOf_str _ _ (by decide) hid1 hid2]
  rw [if_neg (by
    rw [show (!jsTruthy (yamlToJs (some (YamlVal.str s.id)))) = s.id.isEmpty from by
      simp [yamlToJs, jsTruthy]]
    rw [hie]
    simp)]
  rw [show getData (smData s) "session_key".data
      = some (yamlValueOf "session_key".data s.key) from rfl]
  rw [yamlValueOf_str _ _ (by decide) hk1 hk2]
  rw [show getData (smData s) "agent".data
      = some (yamlValueOf "agent".data s.agentPath) from rfl]
  rw [yamlValueOf_str _ _ (by decide) ha1 ha2]
  rw [show getData (smData s) "title".data = none from rfl]
  rw [show getData (smData s) "context".data = none from rfl]
  rw [show getData (smData s) "sdk_session_id".data
      = some (yamlValueOf "sdk_session_id".data
          ((validateSdkSessionId s.sdkSessionId).getD [])) from rfl]
  rw [show getData (smData s) "created_at".data
      = some (yamlValueOf "created_at".data s.createdAt) from rfl]
  rw [show getData (smData s) "last_accessed".data
      = some (yamlValueOf "last_accessed".data s.lastAccessed) from rfl]
  rw [show getData (smData s) "archived".data
      = some (YamlVal.str (if s.archived then "true".data else "false".data))
      from rfl]
  rw [parseMessages_smTail now s hagn hmsg]
  have hsdk : validateSdkSessionId (yamlToJs (some (yamlValueOf
      "sdk_session_id".data ((validateSdkSessionId s.sdkSessionId).getD []))))
      = validateSdkSessionId s.sdkSessionId := by
    cases hv : validateSdkSessionId s.sdkSessionId with
    | none => rfl
    | some v =>
      obtain ⟨hv1, hv2, hv3⟩ := validateSdkSessionId_some_props hv
      rw [show ((some v).getD ([] : Str)) = v from rfl]
      rw [yamlValueOf_sdk_some hv1]
      rw [show yamlToJs (some (YamlVal.str v)) = .str v from rfl]
      rw [validateSdkSessionId_str]
      rw [if_pos ⟨hv1, hv2, by simp [hv3]⟩]
  rw [hsdk]
  cases s.archived <;> rfl

/-- C5: for every well-formed session record, parsing the markdown
produced for it recovers an equal record: `parseSessionMarkdown`
composed with `sessionToMarkdown` returns a session with the same id,
session key, agent path, archived flag, the same ordered message list
(roles, timestamps and content), and the same message count. -/
theorem format_parse_roundtrip (now : Str) (s : Session)
    (h : wellFormedSession s) :
    ∃ ps, parseSessionMarkdown (sessionToMarkdown now s) s.filePath = some ps
      ∧ ps.id = JsVal.str s.id ∧ ps.key = JsVal.str s.key
      ∧ ps.agentPath = JsVal.str s.agentPath ∧ ps.archived = s.archived
      ∧ ps.messages = s.messages
      ∧ ps.messages.length = s.messages.length :=
  ⟨_, parse_format_master now s h, rfl, rfl, rfl, rfl, rfl, rfl⟩

/-- A concrete well-formed session used to witness the round-trip. -/
def rtSession : Session := {
  id := "sess-1".data
  key := "agents/helper.md:default".data
  agentPath := "agents/helper.md".data
  title := none
  context := []
  sdkSessionId := JsVal.nullV
  messages := [
    ⟨"user".data, "2025-01-02T03:04:05Z".data, "Hello there".data⟩,
    ⟨"assistant".data, "2025-01-02T03:04:09.123Z".data, "Hi! How can I help?".data⟩]
  filePath := "sessions/helper-chat.md".data
  createdAt := "2025-01-02T03:00:00Z".data
  lastAccessed := "2025-01-02T03:04:09Z".data
  archived := false }

/-- Witness for C5 at a concrete two-message session. -/
theorem format_parse_roundtrip_witness :
    wellFormedSession rtSession
    ∧ ∃ ps, parseSessionMarkdown
          (sessionToMarkdown "2025-01-02T03:10:00Z".data rtSession)
          rtSession.filePath = some ps
        ∧ ps.id = JsVal.str rtSession.id ∧ ps.key = JsVal.str rtSession.key
        ∧ ps.agentPath = JsVal.str rtSession.agentPath
        ∧ ps.archived = rtSession.archived
        ∧ ps.messages = rtSession.messages
        ∧ ps.messages.length = rtSession.messages.length :=
  ⟨by decide, format_parse_roundtrip "2025-01-02T03:10:00Z".data rtSession (by decide)⟩

theorem hasSub_cons_of (pat : Str) (c : Char) {rest : Str}
    (h : hasSub pat rest = true) : hasSub pat (c :: rest) = true := by
  unfold hasSub
  rw [h, Bool.or_true]

set_option maxRecDepth 8000

theorem hasSub_sdk_here (rest : Str) :
    hasSub "\nsdk_session_id: \x22\x22\n".data
      ("\nsdk_session_id: ".data ++ (dq ++ (dq
        ++ ("\narchived: ".data ++ rest)))) = true :=
  hasSub_of_isPrefixOf
    ( List.isPrefixOf_iff_prefix.mpr ⟨"archived: ".data ++ rest, rfl⟩)

/-- C4: `validateSdkSessionId` returns the value exactly when it is a
non-empty string that is not `[object Object]` and does not begin with
`[object`, and `null` otherwise; `sessionToMarkdown` writes the
empty-string encoding whenever the stored handle fails validation; a
handle surfaced by `parseSessionMarkdown` is always absent or a valid
string; and round-tripping a well-formed session with an invalid handle
through format-then-parse yields an absent handle. -/
theorem sdk_session_id_roundtrip :
    (∀ (v : JsVal) (r : Str), validateSdkSessionId v = some r
        ↔ (v = JsVal.str r ∧ r ≠ [] ∧ r ≠ "[object Object]".data
            ∧ List.isPrefixOf "[object".data r = false))
    ∧ (∀ (now : Str) (s : Session), validateSdkSessionId s.sdkSessionId = none
        → hasSub "\nsdk_session_id: \x22\x22\n".data
            (sessionToMarkdown now s) = true)
    ∧ (∀ (content fp : Str) (ps : ParsedSession),
        parseSessionMarkdown content fp = some ps
        → ps.sdkSessionId = none
          ∨ ∃ r, ps.sdkSessionId = some r ∧ r ≠ []
              ∧ List.isPrefixOf "[object".data r = false)
    ∧ (∀ (now : Str) (s : Session), wellFormedSession s
        → validateSdkSessionId s.sdkSessionId = none
        → ∃ ps, parseSessionMarkdown (sessionToMarkdown now s) s.filePath
              = some ps
            ∧ ps.sdkSessionId = none) := by
  refine ⟨?_, ?_, ?_, ?_⟩
  · intro v r
    constructor
    · intro hsome
      have hv := validateSdkSessionId_eq_some hsome
      have hp := validateSdkSessionId_some_props hsome
      exact ⟨hv, hp.1, hp.2.1, hp.2.2⟩
    · rintro ⟨rfl, h1, h2, h3⟩
      rw [validateSdkSessionId_str]
      rw [if_pos ⟨h1, h2, by simp [h3]⟩]
  · intro now s hnone
    unfold sessionToMarkdown
    dsimp only
    rw [hnone]
    simp only [Option.getD_none]
    simp only [List.append_assoc, List.cons_append, List.nil_append,
      List.append_nil]
    repeat
      first
        | exact hasSub_sdk_here _
        | apply hasSub_append_right
        | apply hasSub_cons_of
  · intro content fp ps hps
    unfold parseSessionMarkdown at hps
    dsimp only at hps
    split at hps
    · cases hps
    · injection hps with hrec
      subst hrec
      dsimp only
      cases hv : validateSdkSessionId (yamlToJs
          (getData (parseFrontmatter content).data "sdk_session_id".data)) with
      | none => exact Or.inl rfl
      | some r =>
        have hp := validateSdkSessionId_some_props hv
        exact Or.inr ⟨r, rfl, hp.1, hp.2.2⟩
  · intro now s hw hnone
    refine ⟨_, parse_format_master now s hw, ?_⟩
    dsimp only
    exact hnone

/-- Witness for C4: a valid handle string passes validation, a session
with an invalid (null) handle is written with the empty encoding, and
its round-trip parses back to an absent handle. -/
theorem sdk_session_id_roundtrip_witness :
    validateSdkSessionId (JsVal.str "abc".data) = some "abc".data
    ∧ hasSub "\nsdk_session_id: \x22\x22\n".data
        (sessionToMarkdown "t".data rtSession) = true
    ∧ (∃ ps, parseSessionMarkdown (sessionToMarkdown "t".data rtSession)
          rtSession.filePath = some ps
        ∧ ps.sdkSessionId = none) :=
  ⟨(sdk_session_id_roundtrip.1 _ _).mpr ⟨rfl, by decide, by decide, by decide⟩,
   sdk_session_id_roundtrip.2.1 "t".data rtSession (by decide),
   sdk_session_id_roundtrip.2.2.2 "t".data rtSession (by decide) (by decide)⟩

end Parachute
